import Mathlib

/-!
Verification development for the egress-gateway node dataplane.

The Go sources modelled here are `pkg/agent/vxlan.go` (the VXLAN peer
reconciler, the periodic convergence sweep and the neighbor-table resync)
and `pkg/layer2/ndp.go` (the IPv6 neighbor-discovery responder).  Pure
functions of the sources are translated into Lean functions; the stateful
collaborators (kubernetes client, netlink device, policy-route engine)
become explicit state values threaded through the translated control flow.
-/

namespace EgressGW

/-- Bytes of an address, as Go's `net.IP` byte slice; the empty list plays
the role of Go's nil slice. -/
abbrev IP := List Nat

/-- Hardware address bytes, as Go's `net.HardwareAddr`. -/
abbrev MAC := List Nat

/-- Leading bytes of the 16-byte IPv4-in-IPv6 representation used by Go's
`net` package (`v4InV6Prefix`). -/
def v4MappedHead : List Nat := [0, 0, 0, 0, 0, 0, 0, 0, 0, 0, 255, 255]

/-- Model of Go `net.IP.To4`: the 4-byte form of an IPv4 address, nil
(empty) for anything else. -/
def ipTo4 (ip : IP) : IP :=
  if ip.length = 4 then ip
  else if ip.length = 16 ∧ ip.take 12 = v4MappedHead then ip.drop 12
  else []

/-- Model of Go `net.IP.To16`: the 16-byte form, nil (empty) for byte
slices that are neither 4 nor 16 bytes long. -/
def ipTo16 (ip : IP) : IP :=
  if ip.length = 4 then v4MappedHead ++ ip
  else if ip.length = 16 then ip
  else []

/-- Decimal digit value of a character. -/
def decDigit (c : Char) : Option Nat :=
  if ('0') ≤ c ∧ c ≤ ('9') then some (c.toNat - ('0').toNat) else none

def decNatAux : List Char → Nat → Option Nat
  | [], n => some n
  | c :: cs, n =>
    match decDigit c with
    | some d => decNatAux cs (n * 10 + d)
    | none => none

/-- Parse a non-empty all-decimal character list. -/
def decNat : List Char → Option Nat
  | [] => none
  | c :: cs => decNatAux (c :: cs) 0

def splitCharAux (sep : Char) : List Char → List Char → List (List Char)
  | [], acc => [acc.reverse]
  | c :: cs, acc =>
    if c = sep then acc.reverse :: splitCharAux sep cs []
    else splitCharAux sep cs (c :: acc)

/-- Split a character list on a separator character, like Go
`strings.Split` for a one-character separator. -/
def splitChar (sep : Char) (s : List Char) : List (List Char) :=
  splitCharAux sep s []

/-- Model of Go's dotted-quad IPv4 text parsing: four decimal bytes; the
result is the 16-byte IPv4-in-IPv6 form Go's `net.ParseIP` returns. -/
def parseIPv4 (s : List Char) : IP :=
  match (splitChar ('.') s).mapM decNat with
  | some [a, b, c, d] =>
    if a ≤ 255 ∧ b ≤ 255 ∧ c ≤ 255 ∧ d ≤ 255 then v4MappedHead ++ [a, b, c, d] else []
  | _ => []

/-- Hexadecimal digit value of a character. -/
def hexDigit (c : Char) : Option Nat :=
  if ('0') ≤ c ∧ c ≤ ('9') then some (c.toNat - ('0').toNat)
  else if ('a') ≤ c ∧ c ≤ ('f') then some (c.toNat - ('a').toNat + 10)
  else if ('A') ≤ c ∧ c ≤ ('F') then some (c.toNat - ('A').toNat + 10)
  else none

def hexNatAux : List Char → Nat → Option Nat
  | [], n => some n
  | c :: cs, n =>
    match hexDigit c with
    | some d => hexNatAux cs (n * 16 + d)
    | none => none

/-- Parse one 1-4 digit hexadecimal group of an IPv6 literal into its two
bytes. -/
def parseHextet (s : List Char) : Option (List Nat) :=
  if s.length = 0 ∨ 4 < s.length then none
  else
    match hexNatAux s 0 with
    | some n => some [n / 256, n % 256]
    | none => none

/-- Locate the first occurrence of a double colon in an IPv6 literal. -/
def findDoubleColon : List Char → Option (List Char × List Char)
  | [] => none
  | [_] => none
  | c :: c2 :: cs =>
    if c = (':') ∧ c2 = (':') then some ([], cs)
    else
      match findDoubleColon (c2 :: cs) with
      | some (l, r) => some (c :: l, r)
      | none => none

def parseGroups (parts : List (List Char)) : Option (List Nat) :=
  match parts.mapM parseHextet with
  | some bs => some bs.flatten
  | none => none

/-- Simplified model of textual IPv6 parsing: the full 8-group form and a
single double-colon compression are supported.  Other v6 text forms are
not needed by this development; no theorem below depends on which strings
parse. -/
def parseIPv6 (s : List Char) : IP :=
  match findDoubleColon s with
  | none =>
    match parseGroups (splitChar (':') s) with
    | some bs => if bs.length = 16 then bs else []
    | none => []
  | some (l, r) =>
    let lparts := if l = [] then [] else splitChar (':') l
    let rparts := if r = [] then [] else splitChar (':') r
    match parseGroups lparts, parseGroups rparts with
    | some lb, some rb =>
      if lb.length + rb.length ≤ 14 then
        lb ++ List.replicate (16 - lb.length - rb.length) 0 ++ rb
      else []
    | _, _ => []

/-- Model of Go `net.ParseIP`, restricted to dotted-quad IPv4 and the
simple IPv6 forms above; it returns the 16-byte representation, or the
empty list for Go's nil. -/
def parseIP (s : List Char) : IP :=
  if s.contains ('.') then parseIPv4 s else parseIPv6 s

def parseHexByte (s : List Char) : Option Nat :=
  match s with
  | [h, l] =>
    match hexDigit h, hexDigit l with
    | some a, some b => some (a * 16 + b)
    | _, _ => none
  | _ => none

/-- Model of Go `net.ParseMAC`, restricted to the colon-separated 6-byte
form the gateway status fields carry. -/
def parseMAC (s : List Char) : Option MAC :=
  match (splitChar (':') s).mapM parseHexByte with
  | some bs => if bs.length = 6 then some bs else none
  | none => none

/-- Modelled from the spec: `parseMarkToInt` is not among the sources;
the mark fields carry values like a 0x-prefixed hexadecimal number, so
that form is parsed here.  The reconciler theorems take the parser as a
parameter and do not depend on this definition's details. -/
def parseMarkToInt (s : String) : Option Int :=
  match s.data with
  | c1 :: c2 :: rest =>
    if c1 = ('0') ∧ (c2 = ('x') ∨ c2 = ('X')) ∧ rest ≠ [] then
      match hexNatAux rest 0 with
      | some n => some (Int.ofNat n)
      | none => none
    else none
  | _ => none

/-- Model of `vxlan.Peer`: the per-node tunnel record.  Go's nilable
`*net.IP` fields become `Option IP`. -/
structure Peer where
  parent : IP
  ipv4 : Option IP
  ipv6 : Option IP
  mac : MAC
  mark : Int
deriving DecidableEq

/-- The injected configuration the reconciler and sweep read
(`cfg.EnvConfig.NodeName`, `cfg.FileConfig.EnableIPv4/6`,
`cfg.FileConfig.VXLAN.*`, tunnel subnet masks and the reserved base
mark). -/
structure Config where
  nodeName : String
  enableIPv4 : Bool
  enableIPv6 : Bool
  vxlanName : String
  vni : Nat
  port : Nat
  disableChecksumOffload : Bool
  tunnelIPv4Mask : Nat
  tunnelIPv6Mask : Nat
  baseMark : Int
deriving DecidableEq

/-- `EgressNodeStatus.Tunnel.Parent`. -/
structure ParentStatus where
  name : String
  ipv4 : String
  ipv6 : String
deriving DecidableEq

/-- `EgressNodeStatus.Tunnel`. -/
structure TunnelStatus where
  parent : ParentStatus
  ipv4 : String
  ipv6 : String
  mac : String
deriving DecidableEq

/-- The status fields of the watched EgressNode resource. -/
structure EgressNodeStatus where
  tunnel : TunnelStatus
  mark : String
  phase : String
deriving DecidableEq

/-- The watched EgressNode resource as the reconciler sees it; the name of
a fetched object equals the requested name, so it is not repeated here. -/
structure EgressNode where
  deletionTimestampSet : Bool
  status : EgressNodeStatus
deriving DecidableEq

/-- Outcome of the kubernetes `Get` for the requested EgressNode. -/
inductive GetResult where
  | notFound
  | getErr (msg : String)
  | found (node : EgressNode)
deriving DecidableEq

/-- Model of `version`: 4 unless only IPv6 is enabled. -/
def Config.version (cfg : Config) : Nat :=
  if !cfg.enableIPv4 && cfg.enableIPv6 then 6 else 4

/-- Rule identity installed by the policy-route engine for one mark:
link, optional subnets and output mark. -/
structure RuleSpec where
  link : String
  ipv4 : Option IP
  ipv6 : Option IP
  markOut : Int
deriving DecidableEq

/-- Parameters of the VXLAN link as `EnsureLink` receives them. -/
structure LinkSpec where
  name : String
  vni : Nat
  port : Nat
  mac : MAC
  ipv4 : Option (IP × Nat)
  ipv6 : Option (IP × Nat)
  disableChecksumOffload : Bool
deriving DecidableEq

/-- The forwarding state owned by the tunnel device and the policy-route
engine: the link parameters, the neighbor (FDB) table as the set of peer
MACs, and the installed rule per mark. -/
structure DeviceState where
  link : Option LinkSpec
  fdb : List MAC
  rules : List (Int × RuleSpec)
deriving DecidableEq

/-- A state change actually performed on the forwarding state. -/
inductive DevMutation where
  | linkChange
  | neighAdd (mac : MAC)
  | neighDel (mac : MAC)
  | ruleInstall (mark : Int)
  | ruleReplace (mark : Int)
  | ruleRemove (mark : Int)
deriving DecidableEq

/-- A collaborator invocation issued by the reconciler or the sweep,
whether or not it changes any state. -/
inductive DevCall where
  | ensureLink (l : LinkSpec)
  | listNeigh
  | add (mac : MAC)
  | del (mac : MAC)
  | ruleEnsure (markIn : Int)
  | purgeStaleRules (live : List Int) (base : Int)
deriving DecidableEq

/-- Modelled from the spec: `vxlan.Device.EnsureLink` is not among the
sources; per the TunnelDevice contract it idempotently creates or repairs
the link, mutating nothing when the link already matches the desired
parameters. -/
def devEnsureLink (d : LinkSpec) (dev : DeviceState) : DeviceState × List DevMutation :=
  if dev.link = some d then (dev, [])
  else ({dev with link := some d}, [DevMutation.linkChange])

/-- Modelled from the spec: `vxlan.Device.Add` is not among the sources;
per the TunnelDevice contract it is an idempotent neighbor insertion
keyed by MAC. -/
def devAdd (m : MAC) (dev : DeviceState) : DeviceState × List DevMutation :=
  if m ∈ dev.fdb then (dev, [])
  else ({dev with fdb := dev.fdb ++ [m]}, [DevMutation.neighAdd m])

/-- Modelled from the spec: `vxlan.Device.Del` is not among the sources;
per the TunnelDevice contract it idempotently removes the neighbor entry
keyed by MAC. -/
def devDel (m : MAC) (dev : DeviceState) : DeviceState × List DevMutation :=
  if m ∈ dev.fdb then ({dev with fdb := dev.fdb.filter (fun x => x ≠ m)}, [DevMutation.neighDel m])
  else (dev, [])

def lookupRule : List (Int × RuleSpec) → Int → Option RuleSpec
  | [], _ => none
  | (k, v) :: rest, m => if k = m then some v else lookupRule rest m

def storeRule : List (Int × RuleSpec) → Int → RuleSpec → List (Int × RuleSpec)
  | [], m, v => [(m, v)]
  | (k, w) :: rest, m, v => if k = m then (m, v) :: rest else (k, w) :: storeRule rest m v

/-- Modelled from the spec: `route.RuleRoute.Ensure` is not among the
sources; per the PolicyRouteEngine contract it idempotently installs one
policy rule per non-zero mark and re-issuing identical arguments is a
no-op at the forwarding-state level; rules exist only for non-zero marks,
so a zero mark installs nothing. -/
def devRuleEnsure (link : String) (ipv4 ipv6 : Option IP) (markIn markOut : Int)
    (dev : DeviceState) : DeviceState × List DevMutation :=
  if markIn = 0 then (dev, [])
  else
    let spec : RuleSpec := ⟨link, ipv4, ipv6, markOut⟩
    match lookupRule dev.rules markIn with
    | some s =>
      if s = spec then (dev, [])
      else ({dev with rules := storeRule dev.rules markIn spec}, [DevMutation.ruleReplace markIn])
    | none => ({dev with rules := dev.rules ++ [(markIn, spec)]}, [DevMutation.ruleInstall markIn])

def keepRule (live : List Int) (base : Int) (r : Int × RuleSpec) : Bool :=
  decide (r.1 ∈ live ∨ r.1 = base)

/-- Modelled from the spec: `route.RuleRoute.PurgeStaleRules` is not among
the sources; per the PolicyRouteEngine contract it removes every installed
rule whose mark is neither live nor the reserved base mark. -/
def devPurgeStaleRules (live : List Int) (base : Int) (dev : DeviceState) :
    DeviceState × List DevMutation :=
  ({dev with rules := dev.rules.filter (keepRule live base)},
   (dev.rules.filter (fun r => !keepRule live base r)).map (fun r => DevMutation.ruleRemove r.1))

/-- The concurrent peer store `peerMap`, as an association list keyed by
node name. -/
abbrev PeerTable := List (String × Peer)

def storeAssoc : PeerTable → String → Peer → PeerTable
  | [], k, v => [(k, v)]
  | (k1, v1) :: rest, k, v =>
    if k1 = k then (k, v) :: rest else (k1, v1) :: storeAssoc rest k v

def lookupAssoc : PeerTable → String → Option Peer
  | [], _ => none
  | (k1, v1) :: rest, k => if k1 = k then some v1 else lookupAssoc rest k

def deleteAssoc (t : PeerTable) (k : String) : PeerTable :=
  t.filter (fun kv => kv.1 ≠ k)

/-- Combined reconciler-visible state: the peer table plus the forwarding
state of the collaborators. -/
structure AgentState where
  peerMap : PeerTable
  dev : DeviceState
deriving DecidableEq

/-- Outcome of one `ensureRoute` run: the new state, the state mutations
performed, the device calls issued, and the returned error. -/
structure EnsureOut where
  state : AgentState
  muts : List DevMutation
  calls : List DevCall
  err : Option String
deriving DecidableEq

/-- The peers used for neighbor programming: every table entry except the
local node's own. -/
def peersOf (cfg : Config) (t : PeerTable) : List (String × Peer) :=
  t.filter (fun kv => kv.1 ≠ cfg.nodeName)

/-- The MACs expected in the FDB: the MACs of the peers minus self. -/
def expectedMacs (cfg : Config) (t : PeerTable) : List MAC :=
  (peersOf cfg t).map (fun kv => kv.2.mac)

def delLoop (expected : List MAC) : List MAC → DeviceState → DeviceState × List DevMutation
  | [], dev => (dev, [])
  | m :: rest, dev =>
    if m ∈ expected then delLoop expected rest dev
    else
      let r1 := devDel m dev
      let r2 := delLoop expected rest r1.1
      (r2.1, r1.2 ++ r2.2)

def addLoop : List (String × Peer) → DeviceState → DeviceState × List DevMutation
  | [], dev => (dev, [])
  | kv :: rest, dev =>
    let r1 := devAdd kv.2.mac dev
    let r2 := addLoop rest r1.1
    (r2.1, r1.2 ++ r2.2)

/-- Model of `ensureRoute` (src/pkg/agent/vxlan.go): list the current
neighbors — the result is passed in explicitly as `listRes`, and a listing
error is returned at once, before any neighbor mutation — then delete each
listed neighbor whose MAC is not expected and add every peer.  Go keys the
expected set by `MAC.String()`, which is injective on hardware addresses,
so the model keys by the MAC bytes directly. -/
def ensureRoute (cfg : Config) (st : AgentState) (listRes : Except String (List MAC)) :
    EnsureOut :=
  match listRes with
  | Except.error e => ⟨st, [], [DevCall.listNeigh], some e⟩
  | Except.ok neighs =>
    let peers := peersOf cfg st.peerMap
    let expected := expectedMacs cfg st.peerMap
    let d1 := delLoop expected neighs st.dev
    let d2 := addLoop peers d1.1
    ⟨{st with dev := d2.1}, d1.2 ++ d2.2,
      DevCall.listNeigh ::
        ((neighs.filter (fun m => m ∉ expected)).map DevCall.del
          ++ peers.map (fun kv => DevCall.add kv.2.mac)),
      none⟩

/-- One address-family block of `parseVTEP`: the pointer assigned for the
family and whether the family leaves `ready` intact.  When the family is
disabled nothing is checked; when the status string is empty the family is
not ready; otherwise the string is parsed and readiness requires the
family check (`To4`/`To16`) to be non-nil — the pointer is assigned
either way, exactly as in the Go block. -/
def vtepFamily (enabled : Bool) (s : String) (check : IP → IP) : Option IP × Bool :=
  if enabled then
    if s = "" then (none, false)
    else
      let ip := parseIP s.data
      (some ip, !(check ip == []))
  else (none, true)

/-- Model of `parseVTEP` (src/pkg/agent/vxlan.go): the local VTEP record
derived from the node status, or none unless every enabled family's tunnel
address is present and of that family and the MAC parses.  The two
symmetric per-family blocks of the Go function are factored through
`vtepFamily`. -/
def parseVTEP (cfg : Config) (status : EgressNodeStatus) : Option Peer :=
  let v4 := vtepFamily cfg.enableIPv4 status.tunnel.ipv4 ipTo4
  let v6 := vtepFamily cfg.enableIPv6 status.tunnel.ipv6 ipTo16
  match parseMAC status.tunnel.mac.data with
  | none => none
  | some mac => if v4.2 && v6.2 then some ⟨[], v4.1, v6.1, mac, 0⟩ else none

/-- Whether the event counts as a delete: the resource was not found, or
its deletion timestamp is set. -/
def eventDeleted : GetResult → Bool
  | GetResult.notFound => true
  | GetResult.getErr _ => false
  | GetResult.found n => n.deletionTimestampSet

/-- Model of `reconcileEgressNode` (src/pkg/agent/vxlan.go).  The
kubernetes `Get` outcome is `get`; the fetched object's name equals the
requested `req`.  `parseMark` stands for `parseMarkToInt`, whose
definition lives outside the sources.  `upd` is the outcome of
`updateEgressNodeStatus` when it is invoked: its effects are kubernetes
status writes on fields `parseVTEP` does not read, so only its error
matters here. -/
def reconcileEgressNode (cfg : Config) (parseMark : String → Option Int) (upd : Option String)
    (req : String) (get : GetResult) (st : AgentState) : AgentState × Option String :=
  match get with
  | GetResult.getErr e => (st, some e)
  | _ =>
    let node : EgressNode :=
      match get with
      | GetResult.found n => n
      | _ => ⟨false, ⟨⟨⟨"", "", ""⟩, "", "", ""⟩, "", ""⟩⟩
    let deleted := eventDeleted get
    let isPeer : Bool := !(req == cfg.nodeName)
    if deleted then
      if isPeer then
        let st1 : AgentState := {st with peerMap := deleteAssoc st.peerMap req}
        ((ensureRoute cfg st1 (Except.ok st1.dev.fdb)).state, none)
      else (st, none)
    else if isPeer then
      let ip :=
        if cfg.version = 4 then node.status.tunnel.parent.ipv4
        else node.status.tunnel.parent.ipv6
      if ip = "" then (st, none)
      else
        let parentIP := parseIP ip.data
        match parseMAC node.status.tunnel.mac.data with
        | none => (st, none)
        | some mac =>
          let ipv4 := ipTo4 (parseIP node.status.tunnel.ipv4.data)
          let ipv6 := ipTo16 (parseIP node.status.tunnel.ipv6.data)
          let p1 : Peer := ⟨parentIP, none, none, mac, 0⟩
          let p2 := if ipv4 ≠ [] then {p1 with ipv4 := some ipv4} else p1
          let p3 := if ipv6 ≠ [] then {p2 with ipv6 := some ipv6} else p2
          let p4 :=
            match parseMark node.status.mark with
            | none => p3
            | some m => {p3 with mark := m}
          let st1 : AgentState := {st with peerMap := storeAssoc st.peerMap req p4}
          let st2 := (ensureRoute cfg st1 (Except.ok st1.dev.fdb)).state
          let d3 := devRuleEnsure cfg.vxlanName p4.ipv4 p4.ipv6 p4.mark p4.mark st2.dev
          ({st2 with dev := d3.1}, none)
    else
      let needUpdate : Bool :=
        (cfg.version == 4 && node.status.tunnel.parent.ipv4 == "")
          || (cfg.version == 6 && node.status.tunnel.parent.ipv6 == "")
      match (if needUpdate then upd else none) with
      | some e => (st, some e)
      | none =>
        match parseVTEP cfg node.status with
        | none => (st, none)
        | some v => ({st with peerMap := storeAssoc st.peerMap cfg.nodeName v}, none)

/-- The Peer record the reconciler's peer branch constructs, given the
parsed MAC: the parent underlay address, the tunnel addresses kept only
when they parse to the expected family, and the mark left at zero when its
parse fails.  This repeats, term for term, the construction inside
`reconcileEgressNode` so that facts about the stored peer can be stated
against it. -/
def builtPeer (cfg : Config) (pm : String → Option Int) (n : EgressNode) (mac : MAC) : Peer :=
  let parentIP := parseIP (if cfg.version = 4 then n.status.tunnel.parent.ipv4
      else n.status.tunnel.parent.ipv6).data
  let ipv4 := ipTo4 (parseIP n.status.tunnel.ipv4.data)
  let ipv6 := ipTo16 (parseIP n.status.tunnel.ipv6.data)
  let p1 : Peer := ⟨parentIP, none, none, mac, 0⟩
  let p2 := if ipv4 ≠ [] then {p1 with ipv4 := some ipv4} else p1
  let p3 := if ipv6 ≠ [] then {p2 with ipv6 := some ipv6} else p2
  match pm n.status.mark with
  | none => p3
  | some m => {p3 with mark := m}

/-- Whether a peer record carries an address for every enabled family. -/
def familyOk (cfg : Config) (p : Peer) : Bool :=
  (!cfg.enableIPv4 || p.ipv4.isSome) && (!cfg.enableIPv6 || p.ipv6.isSome)

/-- Whether the local node's own table entry, when present, carries an
address for every enabled family. -/
def selfOk (cfg : Config) (t : PeerTable) : Bool :=
  match lookupAssoc t cfg.nodeName with
  | none => true
  | some p => familyOk cfg p

/-- Desired VXLAN link parameters computed by `keepVXLAN` from the self
VTEP entry.  Go dereferences the `vtep.IPv4`/`vtep.IPv6` pointers when the
family is enabled; the entry stored for the local node always carries the
enabled families (the C9 theorem), so `Option.getD` with an empty default
is observationally equal to the pointer dereference. -/
def desiredLink (cfg : Config) (vtep : Peer) : LinkSpec :=
  { name := cfg.vxlanName
    vni := cfg.vni
    port := cfg.port
    mac := vtep.mac
    ipv4 :=
      if cfg.enableIPv4 && !(ipTo4 (vtep.ipv4.getD []) == []) then
        some (ipTo4 (vtep.ipv4.getD []), cfg.tunnelIPv4Mask)
      else none
    ipv6 :=
      if cfg.enableIPv6 && !(ipTo16 (vtep.ipv6.getD []) == []) then
        some (ipTo16 (vtep.ipv6.getD []), cfg.tunnelIPv6Mask)
      else none
    disableChecksumOffload := cfg.disableChecksumOffload }

def ruleLoop (cfg : Config) : List (String × Peer) → DeviceState → DeviceState × List DevMutation
  | [], dev => (dev, [])
  | kv :: rest, dev =>
    let r1 := devRuleEnsure cfg.vxlanName kv.2.ipv4 kv.2.ipv6 kv.2.mark kv.2.mark dev
    let r2 := ruleLoop cfg rest r1.1
    (r2.1, r1.2 ++ r2.2)

/-- The non-zero marks currently carried by table entries, as collected
into `markMap` during the sweep's range. -/
def liveMarks (t : PeerTable) : List Int :=
  (t.filter (fun kv => kv.2.mark ≠ 0)).map (fun kv => kv.2.mark)

/-- The rule spec the sweep's `Ensure` call asks for on behalf of one
peer. -/
def ruleSpecOf (cfg : Config) (p : Peer) : RuleSpec :=
  ⟨cfg.vxlanName, p.ipv4, p.ipv6, p.mark⟩

/-- Outcome of one convergence-sweep pass: new state, mutations performed,
calls issued. -/
structure SweepOut where
  state : AgentState
  muts : List DevMutation
  calls : List DevCall
deriving DecidableEq

/-- Model of one pass of the `keepVXLAN` loop body
(src/pkg/agent/vxlan.go), acting on the device and rule state: wait for
the self VTEP entry, ensure the link, resync the neighbor table, ensure
every peer's policy rule while collecting the live marks, then purge stale
rules.  The mid-pass kubernetes status write (`updateEgressNodeStatus`)
touches neither the peer table nor the forwarding state and is elided.
When the self entry is absent the pass sleeps and retries, issuing
nothing. -/
def sweepPass (cfg : Config) (st : AgentState) : SweepOut :=
  match lookupAssoc st.peerMap cfg.nodeName with
  | none => ⟨st, [], []⟩
  | some vtep =>
    let d := desiredLink cfg vtep
    let r1 := devEnsureLink d st.dev
    let st1 : AgentState := {st with dev := r1.1}
    let o2 := ensureRoute cfg st1 (Except.ok st1.dev.fdb)
    let st2 := o2.state
    let r3 := ruleLoop cfg st2.peerMap st2.dev
    let live := liveMarks st2.peerMap
    let r4 := devPurgeStaleRules live cfg.baseMark r3.1
    ⟨{st2 with dev := r4.1},
     r1.2 ++ o2.muts ++ r3.2 ++ r4.2,
     DevCall.ensureLink d :: o2.calls
       ++ st2.peerMap.map (fun kv => DevCall.ruleEnsure kv.2.mark)
       ++ [DevCall.purgeStaleRules live cfg.baseMark]⟩

/-- Whether every two table entries sharing a non-zero mark ask for the
same rule spec, so the per-mark rule is well defined.  A zero mark
installs no rule, so zero-mark entries are unconstrained. -/
def markConsistent (cfg : Config) (t : PeerTable) : Bool :=
  t.all (fun kv => t.all (fun kv2 =>
    (kv.2.mark == 0) || !(kv.2.mark == kv2.2.mark)
      || (ruleSpecOf cfg kv.2 == ruleSpecOf cfg kv2.2)))

/-- Direction of an NDP link-layer-address option. -/
inductive NDDirection where
  | source
  | target
deriving DecidableEq

/-- An option attached to a Neighbor Solicitation. -/
inductive NDOption where
  | lla (dir : NDDirection) (addr : MAC)
  | otherOpt
deriving DecidableEq

/-- An inbound NDP message as `conn.ReadFrom` yields it. -/
inductive NDMessage where
  | neighborSolicitation (target : IP) (options : List NDOption)
  | otherMessage
deriving DecidableEq

/-- Outcome of one blocking read: a message with its transport-reported
sender, or a read error, which is either an EOF (peer-initiated close) or
any other I/O error. -/
inductive ReadResult where
  | ok (msg : NDMessage) (src : IP)
  | readErr (isEOF : Bool)
deriving DecidableEq

/-- The `dropReason` values `processRequest` can return.  The
announce-decision reasons beyond the interface mismatch are collapsed into
one constructor; the read loop only compares against
`dropReasonClosed`. -/
inductive DropReason where
  | dropReasonNone
  | dropReasonClosed
  | dropReasonError
  | dropReasonMessageType
  | dropReasonNoSourceLL
  | dropReasonNotMatchInterface
  | dropReasonAnnounceIP
deriving DecidableEq

/-- One Neighbor Advertisement as `advertise` builds and writes it. -/
structure Advertisement where
  dst : IP
  target : IP
  solicited : Bool
  override : Bool
  targetLLAddr : MAC
deriving DecidableEq

/-- Model of `advertise` (src/pkg/layer2/ndp.go): the advertisement
written to `dst` has `Solicited` the negation of `gratuitous`, `Override`
equal to it, and a target link-layer option carrying this interface's
MAC.  The socket write is modelled as succeeding. -/
def advertise (hw : MAC) (dst target : IP) (gratuitous : Bool) : Advertisement :=
  ⟨dst, target, !gratuitous, gratuitous, hw⟩

/-- Model of the option scan in `processRequest`: the first option that is
a link-layer address of direction Source; other options, including target
link-layer addresses, are skipped. -/
def findSourceLL : List NDOption → Option MAC
  | [] => none
  | NDOption.lla dir addr :: rest =>
    if dir = NDDirection.source then some addr else findSourceLL rest
  | NDOption.otherOpt :: rest => findSourceLL rest

/-- Outcome of one `processRequest` step: the drop reason, the
advertisements written, and the increase of the sent-response counter. -/
structure ProcOut where
  reason : DropReason
  sent : List Advertisement
  sentResponses : Nat
deriving DecidableEq

/-- Model of `processRequest` (src/pkg/layer2/ndp.go), one read step of
the responder loop.  `closedSignaled` is whether the `closed` channel has
been closed: a read error yields `dropReasonClosed` when the close was
signalled or the error is an EOF, and `dropReasonError` otherwise.  A
non-solicitation message is dropped; a solicitation without a source
link-layer option is dropped; otherwise the externally supplied `announce`
decision is consulted, and on approval exactly one solicited,
non-gratuitous advertisement is written to the transport-reported sender
`src` — not to the option's address — and the sent-response counter grows
by one (the write is modelled as succeeding). -/
def processRequest (hw : MAC) (intf : String) (announce : IP → String → DropReason)
    (closedSignaled : Bool) (input : ReadResult) : ProcOut :=
  match input with
  | ReadResult.readErr isEOF =>
    if closedSignaled then ⟨DropReason.dropReasonClosed, [], 0⟩
    else if isEOF then ⟨DropReason.dropReasonClosed, [], 0⟩
    else ⟨DropReason.dropReasonError, [], 0⟩
  | ReadResult.ok msg src =>
    match msg with
    | NDMessage.otherMessage => ⟨DropReason.dropReasonMessageType, [], 0⟩
    | NDMessage.neighborSolicitation target opts =>
      match findSourceLL opts with
      | none => ⟨DropReason.dropReasonNoSourceLL, [], 0⟩
      | some _ =>
        let reason := announce target intf
        if reason = DropReason.dropReasonNone then
          ⟨DropReason.dropReasonNone, [advertise hw src target false], 1⟩
        else ⟨reason, [], 0⟩

/-- Model of the `run` loop (src/pkg/layer2/ndp.go): keep calling
`processRequest` until a step returns `dropReasonClosed`; the trace of
per-step outcomes over the given sequence of read results is returned. -/
def runTrace (hw : MAC) (intf : String) (announce : IP → String → DropReason)
    (closedSignaled : Bool) : List ReadResult → List ProcOut
  | [] => []
  | r :: rest =>
    let o := processRequest hw intf announce closedSignaled r
    if o.reason = DropReason.dropReasonClosed then [o]
    else o :: runTrace hw intf announce closedSignaled rest

/-- Refcount state of one solicited-node multicast group, together with
how many group joins and leaves have been issued.  The map value in Go is
an `int64`, so the count is an integer. -/
structure GroupState where
  count : Int
  joins : Nat
  leaves : Nat
deriving DecidableEq

/-- Model of `Watch` (src/pkg/layer2/ndp.go) for one IPv6 address's
solicited-node group: join the group when the refcount is zero, then
increment it.  The IPv4 early return and the group-derivation error path
precede this step and leave the state untouched; the join syscall is
modelled as succeeding. -/
def watchStep (s : GroupState) : GroupState :=
  let s1 := if s.count = 0 then {s with joins := s.joins + 1} else s
  {s1 with count := s1.count + 1}

/-- Model of `Unwatch` (src/pkg/layer2/ndp.go): decrement the refcount
unconditionally, then leave the group when the new count is zero. -/
def unwatchStep (s : GroupState) : GroupState :=
  let s1 : GroupState := {s with count := s.count - 1}
  if s1.count = 0 then {s1 with leaves := s1.leaves + 1} else s1

/-- One call in an interleaving of `Watch`/`Unwatch` on the same IPv6
address. -/
inductive WatchOp where
  | watch
  | unwatch
deriving DecidableEq

def applyOp (s : GroupState) : WatchOp → GroupState
  | WatchOp.watch => watchStep s
  | WatchOp.unwatch => unwatchStep s

def runOps : List WatchOp → GroupState → GroupState
  | [], s => s
  | op :: rest, s => runOps rest (applyOp s op)

/-- The state before any watcher: the Go map misses the key, so the count
reads as zero. -/
def initGroup : GroupState := ⟨0, 0, 0⟩

/-- The refcount change one call performs. -/
def countStep (c : Int) : WatchOp → Int
  | WatchOp.watch => c + 1
  | WatchOp.unwatch => c - 1

/-- Number of 0 to 1 refcount transitions along an op sequence starting at
count `c`. -/
def trans01 : List WatchOp → Int → Nat
  | [], _ => 0
  | op :: rest, c =>
    (if c = 0 ∧ countStep c op = 1 then 1 else 0) + trans01 rest (countStep c op)

/-- Number of 1 to 0 refcount transitions along an op sequence starting at
count `c`. -/
def trans10 : List WatchOp → Int → Nat
  | [], _ => 0
  | op :: rest, c =>
    (if c = 1 ∧ countStep c op = 0 then 1 else 0) + trans10 rest (countStep c op)

/-- Whether no prefix of the op sequence has more Unwatch than Watch
calls, tracking the current Watch surplus `k`. -/
def balancedFrom : List WatchOp → Nat → Bool
  | [], _ => true
  | WatchOp.watch :: rest, k => balancedFrom rest (k + 1)
  | WatchOp.unwatch :: rest, k => !(k == 0) && balancedFrom rest (k - 1)

/-! Concrete values used by the witness and counterexample theorems. -/

/-- The MAC aa:bb:cc:dd:ee:ff. -/
def macA : MAC := [170, 187, 204, 221, 238, 255]

/-- A second MAC, 02:00:00:00:00:01. -/
def macSelf : MAC := [2, 0, 0, 0, 0, 1]

/-- An IPv4-only configuration for the examples. -/
def cfgEx : Config :=
  { nodeName := "node1"
    enableIPv4 := true
    enableIPv6 := false
    vxlanName := "egress.vxlan"
    vni := 100
    port := 7789
    disableChecksumOffload := false
    tunnelIPv4Mask := 24
    tunnelIPv6Mask := 64
    baseMark := 1000 }

/-- A self VTEP entry and one peer, with an empty forwarding state. -/
def selfPeerEx : Peer := ⟨[], some [10, 6, 1, 21], none, macSelf, 1000⟩

def peerAEx : Peer := ⟨v4MappedHead ++ [10, 0, 0, 250], some [10, 6, 1, 22], none, macA, 153⟩

def stEx : AgentState := ⟨[("node1", selfPeerEx), ("peerA", peerAEx)], ⟨none, [], []⟩⟩

def emptyState : AgentState := ⟨[], ⟨none, [], []⟩⟩

/-- A mark parser that always fails, standing for an unparsable mark. -/
def noMark : String → Option Int := fun _ => none

/-- A peer node status carrying a parent IP and a MAC but no tunnel
addresses at all. -/
def nodeNoTunnelIP : EgressNode :=
  ⟨false, ⟨⟨⟨"eth0", "10.0.0.250", ""⟩, "", "", "aa:bb:cc:dd:ee:ff"⟩, "", ""⟩⟩

/-- A fully bootstrapped peer node status whose advertised mark does not
parse. -/
def nodeBadMark : EgressNode :=
  ⟨false, ⟨⟨⟨"eth0", "10.0.0.250", ""⟩, "10.6.1.22", "", "aa:bb:cc:dd:ee:ff"⟩, "zz", ""⟩⟩

/-- The self node status used by the C9 witness. -/
def statusEx : EgressNodeStatus :=
  ⟨⟨⟨"eth0", "10.0.0.250", ""⟩, "10.6.1.21", "", "aa:bb:cc:dd:ee:ff"⟩, "0x100", ""⟩

/-- The VTEP record `parseVTEP` produces from `statusEx` under `cfgEx`. -/
def vtepEx : Peer := ⟨[], some (v4MappedHead ++ [10, 6, 1, 21]), none, macA, 0⟩

/-- An announce decision that approves every target. -/
def annAllow : IP → String → DropReason := fun _ _ => DropReason.dropReasonNone

/-- The op sequence used by the C4 witness. -/
def opsEx : List WatchOp :=
  [WatchOp.watch, WatchOp.watch, WatchOp.unwatch, WatchOp.unwatch, WatchOp.watch, WatchOp.unwatch]

/-- The options attached to the example solicitation: a non-address
option, a target link-layer address, then the source link-layer
address. -/
def optsEx : List NDOption :=
  [NDOption.otherOpt, NDOption.lla NDDirection.target macSelf, NDOption.lla NDDirection.source macA]

/-- The transport-reported sender of the example solicitation. -/
def srcEx : IP := [254, 128, 0, 0, 0, 0, 0, 0, 0, 0, 0, 0, 0, 0, 0, 2]

/-- The solicited target address fe80::10. -/
def tgtEx : IP := [254, 128, 0, 0, 0, 0, 0, 0, 0, 0, 0, 0, 0, 0, 0, 16]

example : parseIP ("10.0.0.250").data = v4MappedHead ++ [10, 0, 0, 250] := by decide
example : parseIP ("").data = [] := by decide
example : parseIP ("fd00::1").data =
    [253, 0, 0, 0, 0, 0, 0, 0, 0, 0, 0, 0, 0, 0, 0, 1] := by decide
example : parseMAC ("aa:bb:cc:dd:ee:ff").data = some macA := by decide
example : parseMAC ("zz").data = none := by decide
example : parseMarkToInt ("0x100") = some 256 := by decide
example : parseMarkToInt ("") = none := by decide

/-! Helper lemmas about the peer table. -/

theorem lookupAssoc_storeAssoc_self (t : PeerTable) (k : String) (v : Peer) :
    lookupAssoc (storeAssoc t k v) k = some v := by
  induction t with
  | nil => simp [storeAssoc, lookupAssoc]
  | cons kv rest ih =>
    obtain ⟨k1, v1⟩ := kv
    by_cases h : k1 = k <;> simp [storeAssoc, lookupAssoc, h, ih]

theorem lookupAssoc_storeAssoc_ne (t : PeerTable) (k k2 : String) (v : Peer) (h : k2 ≠ k) :
    lookupAssoc (storeAssoc t k v) k2 = lookupAssoc t k2 := by
  induction t with
  | nil => simp [storeAssoc, lookupAssoc, Ne.symm h]
  | cons kv rest ih =>
    obtain ⟨k1, v1⟩ := kv
    by_cases h1 : k1 = k
    · subst h1
      simp [storeAssoc, lookupAssoc, Ne.symm h]
    · by_cases h2 : k1 = k2 <;> simp [storeAssoc, lookupAssoc, h, h1, h2, ih]

theorem lookupAssoc_deleteAssoc_self (t : PeerTable) (k : String) :
    lookupAssoc (deleteAssoc t k) k = none := by
  induction t with
  | nil => rfl
  | cons kv rest ih =>
    obtain ⟨k1, v1⟩ := kv
    simp only [deleteAssoc, ne_eq, decide_not] at ih ⊢
    rw [List.filter_cons]
    by_cases h : k1 = k
    · simp only [h, decide_True, Bool.not_true, Bool.false_eq_true, if_false]
      exact ih
    · simp only [h, decide_False, Bool.not_false, if_true, lookupAssoc, if_neg h]
      exact ih

theorem lookupAssoc_deleteAssoc_ne (t : PeerTable) (k k2 : String) (h : k2 ≠ k) :
    lookupAssoc (deleteAssoc t k) k2 = lookupAssoc t k2 := by
  induction t with
  | nil => rfl
  | cons kv rest ih =>
    obtain ⟨k1, v1⟩ := kv
    simp only [deleteAssoc, ne_eq, decide_not] at ih ⊢
    rw [List.filter_cons]
    by_cases h1 : k1 = k
    · subst h1
      simp only [decide_True, Bool.not_true, Bool.false_eq_true, if_false]
      rw [ih]
      simp only [lookupAssoc]
      rw [if_neg (Ne.symm h)]
    · simp only [h1, decide_False, Bool.not_false, if_true]
      by_cases h2 : k1 = k2
      · simp only [lookupAssoc, if_pos h2]
      · simp only [lookupAssoc, if_neg h2]
        exact ih

/-! Helper lemmas about the device model and `ensureRoute`. -/

theorem ensureRoute_peerMap (cfg : Config) (st : AgentState) (lr : Except String (List MAC)) :
    (ensureRoute cfg st lr).state.peerMap = st.peerMap := by
  cases lr <;> rfl

theorem devAdd_fdb_mem (m x : MAC) (dev : DeviceState) :
    x ∈ (devAdd m dev).1.fdb ↔ x ∈ dev.fdb ∨ m = x := by
  simp only [devAdd]
  split
  · rename_i h
    constructor
    · exact fun hx => Or.inl hx
    · rintro (hx | rfl)
      · exact hx
      · exact h
  · simp [List.mem_append, eq_comm]

theorem devAdd_link_rules (m : MAC) (dev : DeviceState) :
    (devAdd m dev).1.link = dev.link ∧ (devAdd m dev).1.rules = dev.rules := by
  simp only [devAdd]
  split <;> exact ⟨rfl, rfl⟩

theorem devDel_fdb_mem (m x : MAC) (dev : DeviceState) :
    x ∈ (devDel m dev).1.fdb ↔ x ∈ dev.fdb ∧ x ≠ m := by
  simp only [devDel]
  split
  · simp [List.mem_filter]
  · rename_i h
    constructor
    · intro hx
      refine ⟨hx, ?_⟩
      rintro rfl
      exact h hx
    · exact fun hx => hx.1

theorem devDel_link_rules (m : MAC) (dev : DeviceState) :
    (devDel m dev).1.link = dev.link ∧ (devDel m dev).1.rules = dev.rules := by
  simp only [devDel]
  split <;> exact ⟨rfl, rfl⟩

theorem delLoop_fdb_mem (e : List MAC) (n : List MAC) (dev : DeviceState) (x : MAC) :
    x ∈ (delLoop e n dev).1.fdb ↔ x ∈ dev.fdb ∧ (x ∈ e ∨ x ∉ n) := by
  induction n generalizing dev with
  | nil => simp [delLoop]
  | cons m rest ih =>
    simp only [delLoop]
    split
    · rename_i hm
      rw [ih]
      constructor
      · rintro ⟨hf, he | hn⟩
        · exact ⟨hf, Or.inl he⟩
        · by_cases hxm : x = m
          · subst hxm
            exact ⟨hf, Or.inl hm⟩
          · exact ⟨hf, Or.inr (by simp [List.mem_cons, hxm, hn])⟩
      · rintro ⟨hf, he | hn⟩
        · exact ⟨hf, Or.inl he⟩
        · exact ⟨hf, Or.inr (fun hr => hn (List.mem_cons_of_mem _ hr))⟩
    · rename_i hm
      rw [ih, devDel_fdb_mem]
      constructor
      · rintro ⟨⟨hf, hne⟩, he | hn⟩
        · exact ⟨hf, Or.inl he⟩
        · exact ⟨hf, Or.inr (by simp [List.mem_cons, hne, hn])⟩
      · rintro ⟨hf, he | hn⟩
        · by_cases hxm : x = m
          · subst hxm
            exact absurd he hm
          · exact ⟨⟨hf, hxm⟩, Or.inl he⟩
        · have hxm : x ≠ m := fun hx => hn (by simp [List.mem_cons, hx])
          exact ⟨⟨hf, hxm⟩, Or.inr (fun hr => hn (List.mem_cons_of_mem _ hr))⟩

theorem delLoop_link_rules (e : List MAC) (n : List MAC) (dev : DeviceState) :
    (delLoop e n dev).1.link = dev.link ∧ (delLoop e n dev).1.rules = dev.rules := by
  induction n generalizing dev with
  | nil => exact ⟨rfl, rfl⟩
  | cons m rest ih =>
    simp only [delLoop]
    split
    · exact ih dev
    · refine ⟨?_, ?_⟩
      · rw [(ih _).1, (devDel_link_rules m dev).1]
      · rw [(ih _).2, (devDel_link_rules m dev).2]

theorem addLoop_fdb_mem (l : List (String × Peer)) (dev : DeviceState) (x : MAC) :
    x ∈ (addLoop l dev).1.fdb ↔ x ∈ dev.fdb ∨ ∃ kv ∈ l, kv.2.mac = x := by
  induction l generalizing dev with
  | nil => simp [addLoop]
  | cons kv rest ih =>
    simp only [addLoop]
    rw [ih, devAdd_fdb_mem]
    simp only [List.exists_mem_cons_iff]
    tauto

theorem addLoop_link_rules (l : List (String × Peer)) (dev : DeviceState) :
    (addLoop l dev).1.link = dev.link ∧ (addLoop l dev).1.rules = dev.rules := by
  induction l generalizing dev with
  | nil => exact ⟨rfl, rfl⟩
  | cons kv rest ih =>
    simp only [addLoop]
    refine ⟨?_, ?_⟩
    · rw [(ih _).1, (devAdd_link_rules kv.2.mac dev).1]
    · rw [(ih _).2, (devAdd_link_rules kv.2.mac dev).2]

theorem mem_expectedMacs (cfg : Config) (t : PeerTable) (x : MAC) :
    x ∈ expectedMacs cfg t ↔ ∃ kv ∈ t, kv.1 ≠ cfg.nodeName ∧ kv.2.mac = x := by
  simp only [expectedMacs, peersOf, List.mem_map, List.mem_filter, decide_eq_true_eq]
  tauto

theorem mem_peersOf (cfg : Config) (t : PeerTable) (kv : String × Peer) :
    kv ∈ peersOf cfg t ↔ kv ∈ t ∧ kv.1 ≠ cfg.nodeName := by
  simp [peersOf, List.mem_filter]

theorem ensureRoute_ok_fdb_mem (cfg : Config) (st : AgentState) (x : MAC) :
    x ∈ (ensureRoute cfg st (Except.ok st.dev.fdb)).state.dev.fdb ↔
      x ∈ expectedMacs cfg st.peerMap := by
  show x ∈ (addLoop (peersOf cfg st.peerMap)
      (delLoop (expectedMacs cfg st.peerMap) st.dev.fdb st.dev).1).1.fdb ↔ _
  rw [addLoop_fdb_mem, delLoop_fdb_mem]
  constructor
  · rintro (⟨hf, hx | hn⟩ | ⟨kv, hkv, hmac⟩)
    · exact hx
    · exact absurd hf hn
    · simp only [expectedMacs, List.mem_map]
      exact ⟨kv, hkv, hmac⟩
  · intro hx
    simp only [expectedMacs, List.mem_map] at hx
    exact Or.inr hx

theorem ensureRoute_ok_link_rules (cfg : Config) (st : AgentState) (neighs : List MAC) :
    (ensureRoute cfg st (Except.ok neighs)).state.dev.link = st.dev.link ∧
    (ensureRoute cfg st (Except.ok neighs)).state.dev.rules = st.dev.rules := by
  constructor
  · show (addLoop (peersOf cfg st.peerMap)
        (delLoop (expectedMacs cfg st.peerMap) neighs st.dev).1).1.link = st.dev.link
    rw [(addLoop_link_rules _ _).1, (delLoop_link_rules _ _ _).1]
  · show (addLoop (peersOf cfg st.peerMap)
        (delLoop (expectedMacs cfg st.peerMap) neighs st.dev).1).1.rules = st.dev.rules
    rw [(addLoop_link_rules _ _).2, (delLoop_link_rules _ _ _).2]

theorem delLoop_noop (e : List MAC) : ∀ (n : List MAC) (dev : DeviceState),
    (∀ m ∈ n, m ∈ e) → delLoop e n dev = (dev, []) := by
  intro n
  induction n with
  | nil => intro dev _; rfl
  | cons m rest ih =>
    intro dev h
    simp only [delLoop, if_pos (h m (List.mem_cons_self _ _))]
    exact ih dev (fun b hb => h b (List.mem_cons_of_mem _ hb))

theorem addLoop_noop : ∀ (l : List (String × Peer)) (dev : DeviceState),
    (∀ kv ∈ l, kv.2.mac ∈ dev.fdb) → addLoop l dev = (dev, []) := by
  intro l
  induction l with
  | nil => intro dev _; rfl
  | cons kv rest ih =>
    intro dev h
    have hd : devAdd kv.2.mac dev = (dev, []) := by
      simp only [devAdd, if_pos (h kv (List.mem_cons_self _ _))]
    simp only [addLoop, hd]
    rw [ih dev (fun b hb => h b (List.mem_cons_of_mem _ hb))]
    rfl

theorem ensureRoute_noop (cfg : Config) (st : AgentState)
    (h : ∀ x, x ∈ st.dev.fdb ↔ x ∈ expectedMacs cfg st.peerMap) :
    (ensureRoute cfg st (Except.ok st.dev.fdb)).state = st ∧
    (ensureRoute cfg st (Except.ok st.dev.fdb)).muts = [] := by
  have hdel : delLoop (expectedMacs cfg st.peerMap) st.dev.fdb st.dev = (st.dev, []) :=
    delLoop_noop _ st.dev.fdb st.dev (fun m hm => (h m).1 hm)
  have hadd : addLoop (peersOf cfg st.peerMap) st.dev = (st.dev, []) := by
    apply addLoop_noop
    intro kv hkv
    apply (h kv.2.mac).2
    simp only [expectedMacs, List.mem_map]
    exact ⟨kv, hkv, rfl⟩
  refine ⟨?_, ?_⟩
  · simp only [ensureRoute, hdel, hadd]
  · simp only [ensureRoute, hdel, hadd]
    rfl

/-! Helper lemmas about the rule table. -/

theorem lookupRule_storeRule_self (l : List (Int × RuleSpec)) (m : Int) (v : RuleSpec) :
    lookupRule (storeRule l m v) m = some v := by
  induction l with
  | nil => simp [storeRule, lookupRule]
  | cons kv rest ih =>
    obtain ⟨k, w⟩ := kv
    by_cases h : k = m <;> simp [storeRule, lookupRule, h, ih]

theorem lookupRule_storeRule_ne (l : List (Int × RuleSpec)) (m m2 : Int) (v : RuleSpec)
    (h : m2 ≠ m) : lookupRule (storeRule l m v) m2 = lookupRule l m2 := by
  induction l with
  | nil => simp [storeRule, lookupRule, Ne.symm h]
  | cons kv rest ih =>
    obtain ⟨k, w⟩ := kv
    by_cases h1 : k = m
    · subst h1
      simp [storeRule, lookupRule, Ne.symm h]
    · by_cases h2 : k = m2 <;> simp [storeRule, lookupRule, h, h1, h2, ih]

theorem lookupRule_append_right (l : List (Int × RuleSpec)) (m : Int) (v : RuleSpec)
    (h : lookupRule l m = none) : lookupRule (l ++ [(m, v)]) m = some v := by
  induction l with
  | nil => simp [lookupRule]
  | cons kv rest ih =>
    obtain ⟨k, w⟩ := kv
    by_cases h1 : k = m
    · simp [lookupRule, h1] at h
    · simp only [lookupRule, List.cons_append, if_neg h1] at h ⊢
      exact ih h

theorem lookupRule_append_ne (l : List (Int × RuleSpec)) (m m2 : Int) (v : RuleSpec)
    (h : m2 ≠ m) : lookupRule (l ++ [(m, v)]) m2 = lookupRule l m2 := by
  induction l with
  | nil => simp [lookupRule, Ne.symm h]
  | cons kv rest ih =>
    obtain ⟨k, w⟩ := kv
    by_cases h1 : k = m2 <;> simp [lookupRule, List.cons_append, h1, ih]

theorem devRuleEnsure_fdb_link (link : String) (v4 v6 : Option IP) (m mo : Int)
    (dev : DeviceState) :
    (devRuleEnsure link v4 v6 m mo dev).1.fdb = dev.fdb ∧
    (devRuleEnsure link v4 v6 m mo dev).1.link = dev.link := by
  simp only [devRuleEnsure]
  split
  · exact ⟨rfl, rfl⟩
  · split
    · split <;> exact ⟨rfl, rfl⟩
    · exact ⟨rfl, rfl⟩

theorem devRuleEnsure_lookup_self (link : String) (v4 v6 : Option IP) (m mo : Int)
    (dev : DeviceState) (hm : m ≠ 0) :
    lookupRule (devRuleEnsure link v4 v6 m mo dev).1.rules m = some ⟨link, v4, v6, mo⟩ := by
  simp only [devRuleEnsure, if_neg hm]
  cases hl : lookupRule dev.rules m with
  | none =>
    dsimp only
    exact lookupRule_append_right dev.rules m _ hl
  | some s =>
    dsimp only
    split
    · rename_i hs
      rw [hl, hs]
    · exact lookupRule_storeRule_self dev.rules m _

theorem devRuleEnsure_lookup_ne (link : String) (v4 v6 : Option IP) (m mo m2 : Int)
    (dev : DeviceState) (h : m2 ≠ m) :
    lookupRule (devRuleEnsure link v4 v6 m mo dev).1.rules m2 = lookupRule dev.rules m2 := by
  simp only [devRuleEnsure]
  split
  · rfl
  · cases hl : lookupRule dev.rules m with
    | none =>
      dsimp only
      exact lookupRule_append_ne dev.rules m m2 _ h
    | some s =>
      dsimp only
      split
      · rfl
      · exact lookupRule_storeRule_ne dev.rules m m2 _ h

theorem devRuleEnsure_noop (link : String) (v4 v6 : Option IP) (m mo : Int)
    (dev : DeviceState)
    (h : m = 0 ∨ lookupRule dev.rules m = some ⟨link, v4, v6, mo⟩) :
    devRuleEnsure link v4 v6 m mo dev = (dev, []) := by
  rcases h with h | h
  · subst h
    rfl
  · by_cases hm : m = 0
    · simp [devRuleEnsure, hm]
    · simp only [devRuleEnsure, if_neg hm, h]
      rw [if_pos trivial]

theorem ruleLoop_fdb_link (cfg : Config) (l : List (String × Peer)) (dev : DeviceState) :
    (ruleLoop cfg l dev).1.fdb = dev.fdb ∧ (ruleLoop cfg l dev).1.link = dev.link := by
  induction l generalizing dev with
  | nil => exact ⟨rfl, rfl⟩
  | cons kv rest ih =>
    simp only [ruleLoop]
    refine ⟨?_, ?_⟩
    · rw [(ih _).1, (devRuleEnsure_fdb_link _ _ _ _ _ dev).1]
    · rw [(ih _).2, (devRuleEnsure_fdb_link _ _ _ _ _ dev).2]

theorem ruleLoop_stable (cfg : Config) (m : Int) (s : RuleSpec) (hm : m ≠ 0) :
    ∀ (l : List (String × Peer)) (dev : DeviceState),
      (∀ kv ∈ l, kv.2.mark = m → ruleSpecOf cfg kv.2 = s) →
      lookupRule dev.rules m = some s →
      lookupRule (ruleLoop cfg l dev).1.rules m = some s := by
  intro l
  induction l with
  | nil => intro dev _ hl; exact hl
  | cons kv rest ih =>
    intro dev hcons hl
    simp only [ruleLoop]
    apply ih
    · intro kv2 h2 hmk
      exact hcons kv2 (List.mem_cons_of_mem _ h2) hmk
    · by_cases hk : kv.2.mark = m
      · subst hk
        rw [devRuleEnsure_lookup_self cfg.vxlanName kv.2.ipv4 kv.2.ipv6 kv.2.mark kv.2.mark
          dev hm]
        exact congrArg some (hcons kv (List.mem_cons_self _ _) rfl)
      · rw [devRuleEnsure_lookup_ne cfg.vxlanName kv.2.ipv4 kv.2.ipv6 kv.2.mark kv.2.mark m
          dev (fun hx => hk hx.symm)]
        exact hl

theorem ruleLoop_establishes (cfg : Config) :
    ∀ (l : List (String × Peer)) (dev : DeviceState),
      (∀ kv ∈ l, ∀ kv2 ∈ l, kv.2.mark ≠ 0 → kv.2.mark = kv2.2.mark →
        ruleSpecOf cfg kv.2 = ruleSpecOf cfg kv2.2) →
      ∀ kv ∈ l, kv.2.mark ≠ 0 →
        lookupRule (ruleLoop cfg l dev).1.rules kv.2.mark = some (ruleSpecOf cfg kv.2) := by
  intro l
  induction l with
  | nil =>
    intro dev _ kv hkv
    cases hkv
  | cons kv0 rest ih =>
    intro dev hcons kv hkv hm
    rcases List.mem_cons.1 hkv with rfl | hkv2
    · simp only [ruleLoop]
      exact ruleLoop_stable cfg kv.2.mark (ruleSpecOf cfg kv.2) hm rest _
        (fun kv2 h2 hmk => hcons kv2 (List.mem_cons_of_mem _ h2) kv (List.mem_cons_self _ _)
          (by rw [hmk]; exact hm) hmk)
        (devRuleEnsure_lookup_self cfg.vxlanName kv.2.ipv4 kv.2.ipv6 kv.2.mark kv.2.mark dev hm)
    · simp only [ruleLoop]
      exact ih _
        (fun a ha b hb => hcons a (List.mem_cons_of_mem _ ha) b (List.mem_cons_of_mem _ hb))
        kv hkv2 hm

theorem ruleLoop_noop (cfg : Config) :
    ∀ (l : List (String × Peer)) (dev : DeviceState),
      (∀ kv ∈ l, kv.2.mark = 0 ∨
        lookupRule dev.rules kv.2.mark = some (ruleSpecOf cfg kv.2)) →
      ruleLoop cfg l dev = (dev, []) := by
  intro l
  induction l with
  | nil => intro dev _; rfl
  | cons kv rest ih =>
    intro dev h
    have he : devRuleEnsure cfg.vxlanName kv.2.ipv4 kv.2.ipv6 kv.2.mark kv.2.mark dev
        = (dev, []) :=
      devRuleEnsure_noop _ _ _ _ _ dev (h kv (List.mem_cons_self _ _))
    simp only [ruleLoop, he]
    rw [ih dev (fun a ha => h a (List.mem_cons_of_mem _ ha))]
    rfl

theorem filter_all_keep {α : Type} (l : List α) (p : α → Bool) (h : ∀ a ∈ l, p a = true) :
    l.filter p = l := by
  induction l with
  | nil => rfl
  | cons a rest ih =>
    rw [List.filter_cons, if_pos (h a (List.mem_cons_self _ _)),
      ih (fun b hb => h b (List.mem_cons_of_mem _ hb))]

theorem filter_none_keep {α : Type} (l : List α) (p : α → Bool) (h : ∀ a ∈ l, p a = false) :
    l.filter p = [] := by
  induction l with
  | nil => rfl
  | cons a rest ih =>
    rw [List.filter_cons, if_neg (by simp [h a (List.mem_cons_self _ _)]),
      ih (fun b hb => h b (List.mem_cons_of_mem _ hb))]

theorem lookupRule_filter_keep (l : List (Int × RuleSpec)) (p : Int × RuleSpec → Bool)
    (m : Int) (hp : ∀ s, p (m, s) = true) :
    lookupRule (l.filter p) m = lookupRule l m := by
  induction l with
  | nil => rfl
  | cons kv rest ih =>
    obtain ⟨k, v⟩ := kv
    rw [List.filter_cons]
    by_cases hk : k = m
    · subst hk
      rw [if_pos (hp v)]
      simp [lookupRule]
    · by_cases hpk : p (k, v) = true
      · rw [if_pos hpk]
        simp only [lookupRule, if_neg hk]
        exact ih
      · rw [if_neg hpk, ih]
        simp only [lookupRule, if_neg hk]

theorem keepRule_iff (live : List Int) (base : Int) (r : Int × RuleSpec) :
    keepRule live base r = true ↔ (r.1 ∈ live ∨ r.1 = base) := by
  simp [keepRule]

theorem mem_liveMarks (t : PeerTable) (kv : String × Peer) (hkv : kv ∈ t)
    (hm : kv.2.mark ≠ 0) : kv.2.mark ∈ liveMarks t := by
  simp only [liveMarks, List.mem_map]
  exact ⟨kv, List.mem_filter.2 ⟨hkv, by simpa using hm⟩, rfl⟩

theorem markConsistent_spec (cfg : Config) (t : PeerTable) (h : markConsistent cfg t = true) :
    ∀ kv ∈ t, ∀ kv2 ∈ t, kv.2.mark ≠ 0 → kv.2.mark = kv2.2.mark →
      ruleSpecOf cfg kv.2 = ruleSpecOf cfg kv2.2 := by
  intro kv hkv kv2 hkv2 hm0 hmk
  simp only [markConsistent, List.all_eq_true] at h
  have h2 := h kv hkv kv2 hkv2
  simp only [Bool.or_eq_true, Bool.not_eq_true', beq_eq_false_iff_ne, beq_iff_eq] at h2
  rcases h2 with (hz | hne) | heq
  · exact absurd hz hm0
  · exact absurd hmk hne
  · exact heq

theorem devEnsureLink_link (d : LinkSpec) (dev : DeviceState) :
    (devEnsureLink d dev).1.link = some d := by
  simp only [devEnsureLink]
  split
  · rename_i h
    exact h
  · rfl

theorem devEnsureLink_fdb_rules (d : LinkSpec) (dev : DeviceState) :
    (devEnsureLink d dev).1.fdb = dev.fdb ∧ (devEnsureLink d dev).1.rules = dev.rules := by
  simp only [devEnsureLink]
  split <;> exact ⟨rfl, rfl⟩

theorem devEnsureLink_noop (d : LinkSpec) (dev : DeviceState) (h : dev.link = some d) :
    devEnsureLink d dev = (dev, []) := by
  simp only [devEnsureLink, if_pos h]

theorem devPurge_fdb_link (live : List Int) (base : Int) (dev : DeviceState) :
    (devPurgeStaleRules live base dev).1.fdb = dev.fdb ∧
    (devPurgeStaleRules live base dev).1.link = dev.link :=
  ⟨rfl, rfl⟩

/-! Path lemmas for the reconciler. -/

theorem vtepFamily_isSome (enabled : Bool) (s : String) (check : IP → IP)
    (h : (vtepFamily enabled s check).2 = true) :
    (!enabled || (vtepFamily enabled s check).1.isSome) = true := by
  cases enabled
  · simp
  · by_cases he : s = "" <;> simp [vtepFamily, he] at h ⊢

theorem parseVTEP_familyOk (cfg : Config) (status : EgressNodeStatus) (p : Peer)
    (hv : parseVTEP cfg status = some p) : familyOk cfg p = true := by
  simp only [parseVTEP] at hv
  cases hm : parseMAC status.tunnel.mac.data with
  | none =>
    rw [hm] at hv
    exact absurd hv (by simp)
  | some mac =>
    rw [hm] at hv
    dsimp only at hv
    split at hv
    case isFalse => exact absurd hv (by simp)
    case isTrue hcond =>
      rw [Bool.and_eq_true] at hcond
      cases hv
      simp only [familyOk, Bool.and_eq_true]
      exact ⟨vtepFamily_isSome _ _ _ hcond.1, vtepFamily_isSome _ _ _ hcond.2⟩

theorem reconcile_getErr (cfg : Config) (pm : String → Option Int) (upd : Option String)
    (req : String) (e : String) (st : AgentState) :
    reconcileEgressNode cfg pm upd req (GetResult.getErr e) st = (st, some e) := rfl

theorem reconcile_deleted_peer (cfg : Config) (pm : String → Option Int) (upd : Option String)
    (req : String) (get : GetResult) (st : AgentState)
    (hdel : eventDeleted get = true) (hne : req ≠ cfg.nodeName) :
    reconcileEgressNode cfg pm upd req get st =
      ((ensureRoute cfg ⟨deleteAssoc st.peerMap req, st.dev⟩ (Except.ok st.dev.fdb)).state,
        none) := by
  have hb : (req == cfg.nodeName) = false := beq_eq_false_iff_ne.mpr hne
  cases get with
  | getErr e => simp [eventDeleted] at hdel
  | notFound => simp [reconcileEgressNode, eventDeleted, hb]
  | found n =>
    have hd : n.deletionTimestampSet = true := hdel
    simp [reconcileEgressNode, eventDeleted, hd, hb]

theorem reconcile_deleted_self (cfg : Config) (pm : String → Option Int) (upd : Option String)
    (req : String) (get : GetResult) (st : AgentState)
    (hdel : eventDeleted get = true) (heq : req = cfg.nodeName) :
    reconcileEgressNode cfg pm upd req get st = (st, none) := by
  have hb : (req == cfg.nodeName) = true := beq_iff_eq.mpr heq
  cases get with
  | getErr e => simp [eventDeleted] at hdel
  | notFound => simp [reconcileEgressNode, eventDeleted, hb]
  | found n =>
    have hd : n.deletionTimestampSet = true := hdel
    simp [reconcileEgressNode, eventDeleted, hd, hb]

theorem reconcile_peer_skip_ip (cfg : Config) (pm : String → Option Int) (upd : Option String)
    (req : String) (n : EgressNode) (st : AgentState)
    (hnd : n.deletionTimestampSet = false) (hne : req ≠ cfg.nodeName)
    (hip : (if cfg.version = 4 then n.status.tunnel.parent.ipv4
        else n.status.tunnel.parent.ipv6) = "") :
    reconcileEgressNode cfg pm upd req (GetResult.found n) st = (st, none) := by
  have hb : (req == cfg.nodeName) = false := beq_eq_false_iff_ne.mpr hne
  simp [reconcileEgressNode, eventDeleted, hnd, hb, hip]

theorem reconcile_peer_skip_mac (cfg : Config) (pm : String → Option Int) (upd : Option String)
    (req : String) (n : EgressNode) (st : AgentState)
    (hnd : n.deletionTimestampSet = false) (hne : req ≠ cfg.nodeName)
    (hip : (if cfg.version = 4 then n.status.tunnel.parent.ipv4
        else n.status.tunnel.parent.ipv6) ≠ "")
    (hmac : parseMAC n.status.tunnel.mac.data = none) :
    reconcileEgressNode cfg pm upd req (GetResult.found n) st = (st, none) := by
  have hb : (req == cfg.nodeName) = false := beq_eq_false_iff_ne.mpr hne
  simp [reconcileEgressNode, eventDeleted, hnd, hb, hip, hmac]

theorem reconcile_peer_store (cfg : Config) (pm : String → Option Int) (upd : Option String)
    (req : String) (n : EgressNode) (st : AgentState) (mac : MAC)
    (hnd : n.deletionTimestampSet = false) (hne : req ≠ cfg.nodeName)
    (hip : (if cfg.version = 4 then n.status.tunnel.parent.ipv4
        else n.status.tunnel.parent.ipv6) ≠ "")
    (hmac : parseMAC n.status.tunnel.mac.data = some mac) :
    reconcileEgressNode cfg pm upd req (GetResult.found n) st =
      (let p := builtPeer cfg pm n mac
       let st1 : AgentState := ⟨storeAssoc st.peerMap req p, st.dev⟩
       let st2 := (ensureRoute cfg st1 (Except.ok st1.dev.fdb)).state
       ({st2 with dev := (devRuleEnsure cfg.vxlanName p.ipv4 p.ipv6 p.mark p.mark st2.dev).1},
        none)) := by
  have hb : (req == cfg.nodeName) = false := beq_eq_false_iff_ne.mpr hne
  simp only [reconcileEgressNode, eventDeleted, hnd, hb, Bool.not_false, if_true, if_false,
    Bool.false_eq_true, if_neg hip, hmac, builtPeer]

theorem builtPeer_fields (cfg : Config) (pm : String → Option Int) (n : EgressNode) (mac : MAC) :
    (builtPeer cfg pm n mac).parent =
      parseIP (if cfg.version = 4 then n.status.tunnel.parent.ipv4
        else n.status.tunnel.parent.ipv6).data ∧
    (builtPeer cfg pm n mac).mac = mac ∧
    (builtPeer cfg pm n mac).ipv4 = (if ipTo4 (parseIP n.status.tunnel.ipv4.data) ≠ [] then
        some (ipTo4 (parseIP n.status.tunnel.ipv4.data)) else none) ∧
    (builtPeer cfg pm n mac).ipv6 = (if ipTo16 (parseIP n.status.tunnel.ipv6.data) ≠ [] then
        some (ipTo16 (parseIP n.status.tunnel.ipv6.data)) else none) ∧
    (builtPeer cfg pm n mac).mark =
      (match pm n.status.mark with | none => 0 | some m => m) := by
  refine ⟨?_, ?_, ?_, ?_, ?_⟩ <;>
    · simp only [builtPeer]
      cases hpm : pm n.status.mark <;> split_ifs <;> rfl

theorem reconcile_self_peerMap (cfg : Config) (pm : String → Option Int) (upd : Option String)
    (req : String) (n : EgressNode) (st : AgentState)
    (hnd : n.deletionTimestampSet = false) (heq : req = cfg.nodeName) :
    (reconcileEgressNode cfg pm upd req (GetResult.found n) st).1.peerMap = st.peerMap ∨
    ∃ v, parseVTEP cfg n.status = some v ∧
      (reconcileEgressNode cfg pm upd req (GetResult.found n) st).1.peerMap =
        storeAssoc st.peerMap cfg.nodeName v := by
  have hb : (req == cfg.nodeName) = true := beq_iff_eq.mpr heq
  simp only [reconcileEgressNode, eventDeleted, hnd, hb, Bool.not_true, Bool.false_eq_true,
    if_false]
  by_cases hnu : ((cfg.version == 4 && n.status.tunnel.parent.ipv4 == "")
      || (cfg.version == 6 && n.status.tunnel.parent.ipv6 == "")) = true
  · rw [if_pos hnu]
    cases upd with
    | some e => exact Or.inl rfl
    | none =>
      cases hv : parseVTEP cfg n.status with
      | none => exact Or.inl rfl
      | some v => exact Or.inr ⟨v, rfl, rfl⟩
  · rw [if_neg hnu]
    cases hv : parseVTEP cfg n.status with
    | none => exact Or.inl rfl
    | some v => exact Or.inr ⟨v, rfl, rfl⟩

/-- C3: after a resync (`ensureRoute`) over any PeerTable, a MAC is in the
neighbor/FDB table exactly when it is the MAC of some PeerTable entry
other than the local node's own entry; in particular for a table of self
and two peers the FDB is exactly the two peer MACs and the self entry's
MAC never appears (its key is excluded). -/
theorem ensureRoute_fdb_matches_peers (cfg : Config) (st : AgentState) (x : MAC) :
    x ∈ (ensureRoute cfg st (Except.ok st.dev.fdb)).state.dev.fdb ↔
      ∃ kv ∈ st.peerMap, kv.1 ≠ cfg.nodeName ∧ kv.2.mac = x := by
  show x ∈ (addLoop (peersOf cfg st.peerMap)
      (delLoop (expectedMacs cfg st.peerMap) st.dev.fdb st.dev).1).1.fdb ↔ _
  rw [addLoop_fdb_mem, delLoop_fdb_mem]
  have he := mem_expectedMacs cfg st.peerMap x
  constructor
  · rintro (⟨hf, hx | hn⟩ | ⟨kv, hkv, hmac⟩)
    · exact he.1 hx
    · exact absurd hf hn
    · obtain ⟨hkvt, hkne⟩ := (mem_peersOf cfg st.peerMap kv).1 hkv
      exact ⟨kv, hkvt, hkne, hmac⟩
  · rintro ⟨kv, hkvt, hne, hmac⟩
    exact Or.inr ⟨kv, (mem_peersOf cfg st.peerMap kv).2 ⟨hkvt, hne⟩, hmac⟩

/-- C10: `ensureRoute` is atomic on listing failure: when listing the
current FDB entries returns an error, that error is returned at once, the
state is unchanged, no mutation is performed and no Add or Del call is
issued — only the failed ListNeigh call itself. -/
theorem ensureRoute_list_error_no_mutation (cfg : Config) (st : AgentState) (e : String) :
    ensureRoute cfg st (Except.error e) = ⟨st, [], [DevCall.listNeigh], some e⟩ := rfl

theorem devPurge_rules (live : List Int) (base : Int) (dev : DeviceState) :
    (devPurgeStaleRules live base dev).1.rules = dev.rules.filter (keepRule live base) := rfl

theorem sweepPass_establishes (cfg : Config) (st : AgentState) (vtep : Peer)
    (hlook : lookupAssoc st.peerMap cfg.nodeName = some vtep)
    (hcons : ∀ kv ∈ st.peerMap, ∀ kv2 ∈ st.peerMap,
      kv.2.mark ≠ 0 → kv.2.mark = kv2.2.mark → ruleSpecOf cfg kv.2 = ruleSpecOf cfg kv2.2) :
    (sweepPass cfg st).state.peerMap = st.peerMap ∧
    (sweepPass cfg st).state.dev.link = some (desiredLink cfg vtep) ∧
    (∀ x, x ∈ (sweepPass cfg st).state.dev.fdb ↔ x ∈ expectedMacs cfg st.peerMap) ∧
    (∀ kv ∈ st.peerMap, kv.2.mark ≠ 0 →
      lookupRule (sweepPass cfg st).state.dev.rules kv.2.mark = some (ruleSpecOf cfg kv.2)) ∧
    (∀ r ∈ (sweepPass cfg st).state.dev.rules,
      r.1 ∈ liveMarks st.peerMap ∨ r.1 = cfg.baseMark) := by
  refine ⟨?_, ?_, ?_, ?_, ?_⟩
  · simp only [sweepPass, hlook]
    rw [ensureRoute_peerMap]
  · simp only [sweepPass, hlook]
    rw [(devPurge_fdb_link _ _ _).2, (ruleLoop_fdb_link _ _ _).2,
      (ensureRoute_ok_link_rules _ _ _).1, devEnsureLink_link]
  · intro x
    simp only [sweepPass, hlook]
    rw [(devPurge_fdb_link _ _ _).1, (ruleLoop_fdb_link _ _ _).1, ensureRoute_ok_fdb_mem]
  · intro kv hkv hm
    simp only [sweepPass, hlook]
    rw [ensureRoute_peerMap, devPurge_rules, lookupRule_filter_keep]
    · exact ruleLoop_establishes cfg _ _ hcons kv hkv hm
    · intro s
      rw [keepRule_iff]
      exact Or.inl (mem_liveMarks st.peerMap kv hkv hm)
  · intro r hr
    simp only [sweepPass, hlook] at hr
    rw [ensureRoute_peerMap, devPurge_rules] at hr
    have h2 := (List.mem_filter.1 hr).2
    rw [keepRule_iff] at h2
    exact h2

theorem sweepPass_noop (cfg : Config) (s : AgentState) (vtep : Peer)
    (hlook : lookupAssoc s.peerMap cfg.nodeName = some vtep)
    (hlink : s.dev.link = some (desiredLink cfg vtep))
    (hfdb : ∀ x, x ∈ s.dev.fdb ↔ x ∈ expectedMacs cfg s.peerMap)
    (hrules : ∀ kv ∈ s.peerMap, kv.2.mark ≠ 0 →
      lookupRule s.dev.rules kv.2.mark = some (ruleSpecOf cfg kv.2))
    (hkeep : ∀ r ∈ s.dev.rules, r.1 ∈ liveMarks s.peerMap ∨ r.1 = cfg.baseMark) :
    (sweepPass cfg s).state = s ∧ (sweepPass cfg s).muts = [] := by
  have h1 : devEnsureLink (desiredLink cfg vtep) s.dev = (s.dev, []) :=
    devEnsureLink_noop _ _ hlink
  have h2 := ensureRoute_noop cfg s hfdb
  have h3 : ruleLoop cfg s.peerMap s.dev = (s.dev, []) := by
    apply ruleLoop_noop
    intro kv hkv
    by_cases hm : kv.2.mark = 0
    · exact Or.inl hm
    · exact Or.inr (hrules kv hkv hm)
  have h4 : devPurgeStaleRules (liveMarks s.peerMap) cfg.baseMark s.dev = (s.dev, []) := by
    simp only [devPurgeStaleRules]
    rw [filter_all_keep s.dev.rules _ ?hall, filter_none_keep s.dev.rules _ ?hnone]
    case hall =>
      intro r hr
      rw [keepRule_iff]
      exact hkeep r hr
    case hnone =>
      intro r hr
      have hk : keepRule (liveMarks s.peerMap) cfg.baseMark r = true := by
        rw [keepRule_iff]
        exact hkeep r hr
      rw [hk]
      rfl
    rfl
  constructor
  · simp only [sweepPass, hlook]
    rw [h1]
    dsimp only
    rw [h2.1, h3]
    dsimp only
    rw [h4]
  · simp only [sweepPass, hlook]
    rw [h1]
    dsimp only
    rw [h2.1, h2.2, h3]
    dsimp only
    rw [h4]
    rfl

/-- C1 counterexample: the claim says a second sweep pass over unchanged
PeerTable content issues zero additional mutating calls to TunnelDevice
(Add/Del/link recreation) and PolicyRouteEngine (Ensure/PurgeStaleRules);
but the sweep's resync re-issues an `Add` call for every peer and a rule
`Ensure` call for every table entry on every pass, unconditionally — here
the second pass over the unchanged two-entry table still issues an `Add`
for the peer's MAC and an `Ensure` for its mark. -/
theorem sweep_second_pass_reissues_calls :
    DevCall.add macA ∈ (sweepPass cfgEx (sweepPass cfgEx stEx).state).calls ∧
    DevCall.ruleEnsure 153 ∈ (sweepPass cfgEx (sweepPass cfgEx stEx).state).calls :=
  ⟨by decide, by decide⟩

/-- C1 (amended): over unchanged PeerTable content a second sweep pass
does re-issue the idempotent Add and rule-Ensure calls, but it performs
zero state-changing operations on TunnelDevice and PolicyRouteEngine — no
link recreation, no neighbor add or delete takes effect, no rule is
installed, replaced or purged — and the forwarding state after the second
pass equals the state after the first (provided entries sharing a
non-zero mark ask for the same rule, which makes the per-mark rule well
defined). -/
theorem sweep_second_pass_no_mutations (cfg : Config) (st : AgentState)
    (h : markConsistent cfg st.peerMap = true) :
    (sweepPass cfg (sweepPass cfg st).state).state = (sweepPass cfg st).state ∧
    (sweepPass cfg (sweepPass cfg st).state).muts = [] := by
  cases hlook : lookupAssoc st.peerMap cfg.nodeName with
  | none =>
    have h0 : sweepPass cfg st = ⟨st, [], []⟩ := by
      simp [sweepPass, hlook]
    rw [h0]
    constructor
    · exact congrArg SweepOut.state h0
    · exact congrArg SweepOut.muts h0
  | some vtep =>
    have hc := markConsistent_spec cfg st.peerMap h
    obtain ⟨p1, p2, p3, p4, p5⟩ := sweepPass_establishes cfg st vtep hlook hc
    apply sweepPass_noop cfg (sweepPass cfg st).state vtep
    · rw [p1]
      exact hlook
    · exact p2
    · intro x
      rw [p1]
      exact p3 x
    · intro kv hkv hm
      rw [p1] at hkv
      exact p4 kv hkv hm
    · intro r hr
      rw [p1]
      exact p5 r hr

/-- Witness for the C1 theorem at the concrete two-entry table. -/
theorem sweep_second_pass_no_mutations_example :
    markConsistent cfgEx stEx.peerMap = true ∧
    ((sweepPass cfgEx (sweepPass cfgEx stEx).state).state = (sweepPass cfgEx stEx).state ∧
     (sweepPass cfgEx (sweepPass cfgEx stEx).state).muts = []) :=
  ⟨by decide, sweep_second_pass_no_mutations cfgEx stEx (by decide)⟩

/-- C2 counterexample: the claim says a peer whose tunnel IP does not
match an enabled family is withheld from PeerTable; but the reconciler's
peer branch gates storage only on the parent IP and the MAC — here IPv4 is
the enabled family, the event's tunnel IPv4 is empty, and the peer is
nevertheless stored, with no IPv4 address at all. -/
theorem peer_stored_despite_missing_tunnel_ip :
    cfgEx.enableIPv4 = true ∧ nodeNoTunnelIP.status.tunnel.ipv4 = ("") ∧
    lookupAssoc (reconcileEgressNode cfgEx noMark none ("peerA")
        (GetResult.found nodeNoTunnelIP) emptyState).1.peerMap ("peerA") =
      some ⟨v4MappedHead ++ [10, 0, 0, 250], none, none, macA, 0⟩ :=
  ⟨rfl, rfl, by decide⟩

/-- C2 (amended): for a non-deleted peer event, the peer is withheld from
PeerTable exactly when the enabled-family parent IP is empty or the MAC is
malformed — the reconcile is then a no-op without error; a tunnel IP that
fails to parse to an enabled family does not withhold the peer, which is
stored with that family's address absent.  (Only the local node's own
entry, produced by `parseVTEP`, is withheld on a tunnel-IP mismatch.) -/
theorem peer_event_storage_characterization (cfg : Config) (pm : String → Option Int)
    (upd : Option String) (req : String) (n : EgressNode) (st : AgentState) (mac : MAC)
    (hnd : n.deletionTimestampSet = false) (hne : req ≠ cfg.nodeName) :
    ((if cfg.version = 4 then n.status.tunnel.parent.ipv4
        else n.status.tunnel.parent.ipv6) = "" →
      reconcileEgressNode cfg pm upd req (GetResult.found n) st = (st, none)) ∧
    (parseMAC n.status.tunnel.mac.data = none →
      reconcileEgressNode cfg pm upd req (GetResult.found n) st = (st, none)) ∧
    ((if cfg.version = 4 then n.status.tunnel.parent.ipv4
        else n.status.tunnel.parent.ipv6) ≠ "" →
      parseMAC n.status.tunnel.mac.data = some mac →
      lookupAssoc (reconcileEgressNode cfg pm upd req (GetResult.found n) st).1.peerMap req =
          some (builtPeer cfg pm n mac) ∧
        (builtPeer cfg pm n mac).ipv4 =
          (if ipTo4 (parseIP n.status.tunnel.ipv4.data) ≠ [] then
            some (ipTo4 (parseIP n.status.tunnel.ipv4.data)) else none)) := by
  refine ⟨?_, ?_, ?_⟩
  · intro hip
    exact reconcile_peer_skip_ip cfg pm upd req n st hnd hne hip
  · intro hmac
    by_cases hip : (if cfg.version = 4 then n.status.tunnel.parent.ipv4
        else n.status.tunnel.parent.ipv6) = ""
    · exact reconcile_peer_skip_ip cfg pm upd req n st hnd hne hip
    · exact reconcile_peer_skip_mac cfg pm upd req n st hnd hne hip hmac
  · intro hip hmac
    constructor
    · rw [reconcile_peer_store cfg pm upd req n st mac hnd hne hip hmac]
      dsimp only
      rw [ensureRoute_peerMap]
      exact lookupAssoc_storeAssoc_self st.peerMap req (builtPeer cfg pm n mac)
    · exact (builtPeer_fields cfg pm n mac).2.2.1

/-- Witness for the C2 theorem: the stored-anyway case at the concrete
event whose tunnel IPv4 is missing. -/
theorem peer_event_storage_characterization_example :
    nodeNoTunnelIP.deletionTimestampSet = false ∧
    ("peerA" : String) ≠ cfgEx.nodeName ∧
    lookupAssoc (reconcileEgressNode cfgEx noMark none ("peerA")
        (GetResult.found nodeNoTunnelIP) emptyState).1.peerMap ("peerA") =
      some (builtPeer cfgEx noMark nodeNoTunnelIP macA) :=
  ⟨rfl, by decide,
   ((peer_event_storage_characterization cfgEx noMark none ("peerA") nodeNoTunnelIP emptyState
      macA rfl (by decide)).2.2 (by decide) (by decide)).1⟩

/-- C6: for a non-deleted peer event that passes the parent-IP and MAC
gates but whose advertised firewall mark fails to parse, the reconciler
does not abort or reject the peer: no error is returned and the peer is
stored in PeerTable with its mark defaulted to zero, and reconciliation
continues. -/
theorem mark_parse_failure_defaults_to_zero (cfg : Config) (pm : String → Option Int)
    (upd : Option String) (req : String) (n : EgressNode) (st : AgentState) (mac : MAC)
    (hnd : n.deletionTimestampSet = false) (hne : req ≠ cfg.nodeName)
    (hip : (if cfg.version = 4 then n.status.tunnel.parent.ipv4
        else n.status.tunnel.parent.ipv6) ≠ "")
    (hmac : parseMAC n.status.tunnel.mac.data = some mac)
    (hmark : pm n.status.mark = none) :
    (reconcileEgressNode cfg pm upd req (GetResult.found n) st).2 = none ∧
    lookupAssoc (reconcileEgressNode cfg pm upd req (GetResult.found n) st).1.peerMap req =
      some (builtPeer cfg pm n mac) ∧
    (builtPeer cfg pm n mac).mark = 0 := by
  refine ⟨?_, ?_, ?_⟩
  · rw [reconcile_peer_store cfg pm upd req n st mac hnd hne hip hmac]
  · rw [reconcile_peer_store cfg pm upd req n st mac hnd hne hip hmac]
    dsimp only
    rw [ensureRoute_peerMap]
    exact lookupAssoc_storeAssoc_self st.peerMap req (builtPeer cfg pm n mac)
  · rw [(builtPeer_fields cfg pm n mac).2.2.2.2, hmark]

/-- Witness for the C6 theorem at a concrete event whose mark string does
not parse. -/
theorem mark_parse_failure_defaults_to_zero_example :
    parseMarkToInt nodeBadMark.status.mark = none ∧
    (reconcileEgressNode cfgEx parseMarkToInt none ("peerA")
        (GetResult.found nodeBadMark) emptyState).2 = none ∧
    lookupAssoc (reconcileEgressNode cfgEx parseMarkToInt none ("peerA")
        (GetResult.found nodeBadMark) emptyState).1.peerMap ("peerA") =
      some (builtPeer cfgEx parseMarkToInt nodeBadMark macA) ∧
    (builtPeer cfgEx parseMarkToInt nodeBadMark macA).mark = 0 :=
  ⟨by decide,
   (mark_parse_failure_defaults_to_zero cfgEx parseMarkToInt none ("peerA") nodeBadMark
     emptyState macA rfl (by decide) (by decide) (by decide) (by decide)).1,
   (mark_parse_failure_defaults_to_zero cfgEx parseMarkToInt none ("peerA") nodeBadMark
     emptyState macA rfl (by decide) (by decide) (by decide) (by decide)).2.1,
   (mark_parse_failure_defaults_to_zero cfgEx parseMarkToInt none ("peerA") nodeBadMark
     emptyState macA rfl (by decide) (by decide) (by decide) (by decide)).2.2⟩

/-- C7: for every deleted event (resource not found, or deletion timestamp
set): a peer subject is removed from PeerTable and a neighbor resync is
run on the shrunk table, with no error returned; a self subject is a
no-op — PeerTable and the dataplane are left unchanged and no error is
returned. -/
theorem deleted_event_peer_removal_self_noop (cfg : Config) (pm : String → Option Int)
    (upd : Option String) (req : String) (get : GetResult) (st : AgentState)
    (hdel : eventDeleted get = true) :
    (req ≠ cfg.nodeName →
      reconcileEgressNode cfg pm upd req get st =
        ((ensureRoute cfg ⟨deleteAssoc st.peerMap req, st.dev⟩ (Except.ok st.dev.fdb)).state,
          none) ∧
      lookupAssoc (reconcileEgressNode cfg pm upd req get st).1.peerMap req = none) ∧
    (req = cfg.nodeName → reconcileEgressNode cfg pm upd req get st = (st, none)) := by
  constructor
  · intro hne
    have h1 := reconcile_deleted_peer cfg pm upd req get st hdel hne
    refine ⟨h1, ?_⟩
    rw [h1]
    dsimp only
    rw [ensureRoute_peerMap]
    exact lookupAssoc_deleteAssoc_self st.peerMap req
  · exact reconcile_deleted_self cfg pm upd req get st hdel

/-- Witness for the C7 theorem: a not-found event for a stored peer
removes it, and the same event for the local node changes nothing. -/
theorem deleted_event_peer_removal_self_noop_example :
    eventDeleted GetResult.notFound = true ∧
    lookupAssoc (reconcileEgressNode cfgEx parseMarkToInt none ("peerA") GetResult.notFound
        stEx).1.peerMap ("peerA") = none ∧
    reconcileEgressNode cfgEx parseMarkToInt none ("node1") GetResult.notFound stEx =
      (stEx, none) :=
  ⟨rfl,
   ((deleted_event_peer_removal_self_noop cfgEx parseMarkToInt none ("peerA")
       GetResult.notFound stEx rfl).1 (by decide)).2,
   (deleted_event_peer_removal_self_noop cfgEx parseMarkToInt none ("node1")
       GetResult.notFound stEx rfl).2 rfl⟩

/-- C9: `parseVTEP` only produces records carrying an address for every
enabled family; every reconcile step preserves that property of the local
node's own table entry; and the sweep never alters the table — so the
sweep's per-family dereferences of the self entry (`vtep.IPv4.To4()`,
`vtep.IPv6.To16()`) never dereference a nil pointer for an enabled
family. -/
theorem self_entry_has_enabled_families (cfg : Config) (pm : String → Option Int)
    (upd : Option String) (req : String) (get : GetResult) (st : AgentState)
    (status : EgressNodeStatus) (p : Peer) :
    (parseVTEP cfg status = some p → familyOk cfg p = true) ∧
    (selfOk cfg st.peerMap = true →
      selfOk cfg (reconcileEgressNode cfg pm upd req get st).1.peerMap = true) ∧
    (sweepPass cfg st).state.peerMap = st.peerMap := by
  refine ⟨parseVTEP_familyOk cfg status p, ?_, ?_⟩
  · intro hself
    cases get with
    | getErr e => rw [reconcile_getErr]; exact hself
    | notFound =>
      by_cases heq : req = cfg.nodeName
      · rw [reconcile_deleted_self cfg pm upd req GetResult.notFound st rfl heq]
        exact hself
      · rw [reconcile_deleted_peer cfg pm upd req GetResult.notFound st rfl heq]
        dsimp only
        rw [ensureRoute_peerMap]
        simp only [selfOk] at hself ⊢
        rw [lookupAssoc_deleteAssoc_ne st.peerMap req cfg.nodeName (Ne.symm heq)]
        exact hself
    | found n =>
      by_cases hd : n.deletionTimestampSet
      · by_cases heq : req = cfg.nodeName
        · rw [reconcile_deleted_self cfg pm upd req (GetResult.found n) st hd heq]
          exact hself
        · rw [reconcile_deleted_peer cfg pm upd req (GetResult.found n) st hd heq]
          dsimp only
          rw [ensureRoute_peerMap]
          simp only [selfOk] at hself ⊢
          rw [lookupAssoc_deleteAssoc_ne st.peerMap req cfg.nodeName (Ne.symm heq)]
          exact hself
      · have hnd : n.deletionTimestampSet = false := by
          rw [Bool.not_eq_true] at hd
          exact hd
        by_cases heq : req = cfg.nodeName
        · rcases reconcile_self_peerMap cfg pm upd req n st hnd heq with h | ⟨v, hv, h⟩
          · rw [h]
            exact hself
          · rw [h]
            simp only [selfOk]
            rw [lookupAssoc_storeAssoc_self]
            exact parseVTEP_familyOk cfg n.status v hv
        · by_cases hip : (if cfg.version = 4 then n.status.tunnel.parent.ipv4
              else n.status.tunnel.parent.ipv6) = ""
          · rw [reconcile_peer_skip_ip cfg pm upd req n st hnd heq hip]
            exact hself
          · cases hmac : parseMAC n.status.tunnel.mac.data with
            | none =>
              rw [reconcile_peer_skip_mac cfg pm upd req n st hnd heq hip hmac]
              exact hself
            | some mac =>
              rw [reconcile_peer_store cfg pm upd req n st mac hnd heq hip hmac]
              dsimp only
              rw [ensureRoute_peerMap]
              dsimp only
              simp only [selfOk] at hself ⊢
              rw [lookupAssoc_storeAssoc_ne st.peerMap req cfg.nodeName _ (Ne.symm heq)]
              exact hself
  · simp only [sweepPass]
    split
    · rfl
    · dsimp only
      rw [ensureRoute_peerMap]

/-- Witness for the C9 theorem: the concrete IPv4-only self status yields
a record with the IPv4 pointer present, and a reconcile over the concrete
table preserves the property. -/
theorem self_entry_has_enabled_families_example :
    familyOk cfgEx vtepEx = true ∧
    selfOk cfgEx (reconcileEgressNode cfgEx parseMarkToInt none ("node1") GetResult.notFound
        stEx).1.peerMap = true :=
  ⟨(self_entry_has_enabled_families cfgEx parseMarkToInt none ("node1") GetResult.notFound stEx
      statusEx vtepEx).1 (by decide),
   (self_entry_has_enabled_families cfgEx parseMarkToInt none ("node1") GetResult.notFound stEx
      statusEx vtepEx).2.1 (by decide)⟩

/-! Helper lemmas about the refcount model. -/

theorem applyOp_count (s : GroupState) (op : WatchOp) :
    (applyOp s op).count = countStep s.count op := by
  cases op <;> simp only [applyOp, watchStep, unwatchStep, countStep] <;> split <;> rfl

theorem applyOp_joins (s : GroupState) (op : WatchOp) :
    (applyOp s op).joins = s.joins + (if s.count = 0 ∧ countStep s.count op = 1 then 1 else 0) := by
  cases op
  · simp only [applyOp, watchStep, countStep]
    by_cases h : s.count = 0
    · simp [h]
    · have : ¬(s.count = 0 ∧ s.count + 1 = 1) := fun hc => h hc.1
      simp [h, this]
  · have : ¬(s.count = 0 ∧ countStep s.count WatchOp.unwatch = 1) := by
      rintro ⟨h0, h1⟩
      rw [countStep, h0] at h1
      omega
    simp only [applyOp, unwatchStep, this, if_false]
    split <;> rfl

theorem applyOp_leaves (s : GroupState) (op : WatchOp) :
    (applyOp s op).leaves =
      s.leaves + (if s.count = 1 ∧ countStep s.count op = 0 then 1 else 0) := by
  cases op
  · have : ¬(s.count = 1 ∧ countStep s.count WatchOp.watch = 0) := by
      rintro ⟨h0, h1⟩
      rw [countStep, h0] at h1
      omega
    simp only [applyOp, watchStep, this, if_false]
    split <;> rfl
  · simp only [applyOp, unwatchStep, countStep]
    by_cases h : s.count - 1 = 0
    · have h1 : s.count = 1 := by omega
      simp [h, h1]
    · have : ¬(s.count = 1 ∧ s.count - 1 = 0) := fun hc => h hc.2
      simp [h, this]

theorem runOps_joins (ops : List WatchOp) : ∀ s : GroupState,
    (runOps ops s).joins = s.joins + trans01 ops s.count := by
  induction ops with
  | nil => intro s; simp [runOps, trans01]
  | cons op rest ih =>
    intro s
    simp only [runOps, trans01]
    rw [ih, applyOp_joins, applyOp_count]
    omega

theorem runOps_leaves (ops : List WatchOp) : ∀ s : GroupState,
    (runOps ops s).leaves = s.leaves + trans10 ops s.count := by
  induction ops with
  | nil => intro s; simp [runOps, trans10]
  | cons op rest ih =>
    intro s
    simp only [runOps, trans10]
    rw [ih, applyOp_leaves, applyOp_count]
    omega

theorem runOps_count (ops : List WatchOp) : ∀ s : GroupState,
    (runOps ops s).count = List.foldl countStep s.count ops := by
  induction ops with
  | nil => intro s; rfl
  | cons op rest ih =>
    intro s
    simp only [runOps, List.foldl]
    rw [ih, applyOp_count]

theorem balancedFrom_append (p q : List WatchOp) : ∀ k,
    balancedFrom (p ++ q) k = true → balancedFrom p k = true := by
  induction p with
  | nil => intro k _; rfl
  | cons op rest ih =>
    intro k h
    cases op <;> simp only [balancedFrom, List.cons_append] at h ⊢
    · exact ih _ h
    · rw [Bool.and_eq_true] at h ⊢
      exact ⟨h.1, ih _ h.2⟩

theorem balancedFrom_nonneg (p : List WatchOp) : ∀ k : Nat, balancedFrom p k = true →
    0 ≤ List.foldl countStep (k : Int) p := by
  induction p with
  | nil => intro k _; simp [List.foldl]
  | cons op rest ih =>
    intro k h
    cases op
    · simp only [balancedFrom] at h
      have := ih (k + 1) h
      simp only [List.foldl, countStep]
      have hc : (k : Int) + 1 = ((k + 1 : Nat) : Int) := by omega
      rw [hc]
      exact this
    · simp only [balancedFrom, Bool.and_eq_true] at h
      have hk : k ≠ 0 := by
        intro h0
        rw [h0] at h
        simp at h
      have := ih (k - 1) h.2
      simp only [List.foldl, countStep]
      have hc : (k : Int) - 1 = ((k - 1 : Nat) : Int) := by omega
      rw [hc]
      exact this

/-- C4 counterexample: the claim quantifies over any finite interleaving
of Watch and Unwatch on the same IPv6 address and asserts the refcount is
never observed negative; but `Unwatch` decrements unconditionally, so the
single-call interleaving consisting of one Unwatch drives the refcount to
minus one. -/
theorem unwatch_first_yields_negative_refcount :
    (runOps [WatchOp.unwatch] initGroup).count = -1 := by decide

/-- C4 (amended): for every interleaving, the group is joined exactly once
per 0 to 1 refcount transition and left exactly once per 1 to 0
transition; and provided no prefix of the interleaving has more Unwatch
than Watch calls, the refcount is never observed negative (without that
proviso an unmatched Unwatch makes it negative). -/
theorem refcount_transitions_characterization (ops : List WatchOp) :
    (runOps ops initGroup).joins = trans01 ops 0 ∧
    (runOps ops initGroup).leaves = trans10 ops 0 ∧
    (balancedFrom ops 0 = true →
      ∀ p q, ops = p ++ q → 0 ≤ (runOps p initGroup).count) := by
  refine ⟨?_, ?_, ?_⟩
  · have h := runOps_joins ops initGroup
    simpa [initGroup] using h
  · have h := runOps_leaves ops initGroup
    simpa [initGroup] using h
  · intro hb p q hpq
    subst hpq
    have hp := balancedFrom_append p q 0 hb
    have h := balancedFrom_nonneg p 0 hp
    rw [runOps_count]
    simpa [initGroup] using h

/-- Witness for the C4 theorem at a concrete balanced interleaving. -/
theorem refcount_transitions_characterization_example :
    balancedFrom opsEx 0 = true ∧
    (runOps opsEx initGroup).joins = trans01 opsEx 0 ∧
    0 ≤ (runOps [WatchOp.watch, WatchOp.watch] initGroup).count :=
  ⟨by decide, (refcount_transitions_characterization opsEx).1,
   (refcount_transitions_characterization opsEx).2.2 (by decide)
     [WatchOp.watch, WatchOp.watch]
     [WatchOp.unwatch, WatchOp.unwatch, WatchOp.watch, WatchOp.unwatch] rfl⟩

/-- C5 counterexample: the claim asserts every read error is terminal for
the read loop; but a non-EOF read error without a close signal returns
`dropReasonError`, which differs from `dropReasonClosed`, so the loop
keeps reading — here it processes a second read after the I/O error
instead of exiting. -/
theorem io_error_does_not_stop_loop :
    runTrace macA ("eth0") annAllow false [ReadResult.readErr false, ReadResult.readErr true] =
      [⟨DropReason.dropReasonError, [], 0⟩, ⟨DropReason.dropReasonClosed, [], 0⟩] := by decide

/-- C5 (amended): the read loop exits exactly on an explicit close signal
or an EOF read error (peer-initiated close); a non-EOF read error without
a close signal yields `dropReasonError` and the loop continues with the
next read. -/
theorem run_loop_exit_characterization (hw : MAC) (intf : String)
    (announce : IP → String → DropReason) (rest : List ReadResult) (isEOF : Bool) :
    runTrace hw intf announce true (ReadResult.readErr isEOF :: rest) =
      [⟨DropReason.dropReasonClosed, [], 0⟩] ∧
    runTrace hw intf announce false (ReadResult.readErr true :: rest) =
      [⟨DropReason.dropReasonClosed, [], 0⟩] ∧
    runTrace hw intf announce false (ReadResult.readErr false :: rest) =
      ⟨DropReason.dropReasonError, [], 0⟩ :: runTrace hw intf announce false rest := by
  refine ⟨?_, ?_, ?_⟩ <;> simp [runTrace, processRequest]

/-- C8: a non-solicitation message is dropped with no response; a
solicitation without a source link-layer option is dropped; a solicitation
the decision function approves causes exactly one solicited,
non-gratuitous advertisement carrying this interface's MAC as target
link-layer address, sent to the transport-reported sender (not to the
option's address), and the sent-response counter grows by exactly one. -/
theorem process_request_response_characterization (hw : MAC) (intf : String)
    (announce : IP → String → DropReason) (closedSignaled : Bool) (src target t2 : IP)
    (opts o2 : List NDOption) (a : MAC)
    (hopt : findSourceLL opts = some a)
    (hallow : announce target intf = DropReason.dropReasonNone)
    (hnone : findSourceLL o2 = none) :
    processRequest hw intf announce closedSignaled (ReadResult.ok NDMessage.otherMessage src) =
      ⟨DropReason.dropReasonMessageType, [], 0⟩ ∧
    processRequest hw intf announce closedSignaled
        (ReadResult.ok (NDMessage.neighborSolicitation t2 o2) src) =
      ⟨DropReason.dropReasonNoSourceLL, [], 0⟩ ∧
    processRequest hw intf announce closedSignaled
        (ReadResult.ok (NDMessage.neighborSolicitation target opts) src) =
      ⟨DropReason.dropReasonNone, [⟨src, target, true, false, hw⟩], 1⟩ := by
  refine ⟨rfl, ?_, ?_⟩
  · simp [processRequest, hnone]
  · simp [processRequest, hopt, hallow, advertise]

/-- Witness for the C8 theorem: a solicitation for fe80::10 whose source
link-layer option differs from the sender; the reply goes to the sender
with this interface's MAC and the counter grows by one. -/
theorem process_request_response_characterization_example :
    findSourceLL optsEx = some macA ∧
    annAllow tgtEx ("eth0") = DropReason.dropReasonNone ∧
    findSourceLL [NDOption.otherOpt] = none ∧
    processRequest macSelf ("eth0") annAllow false
        (ReadResult.ok (NDMessage.neighborSolicitation tgtEx optsEx) srcEx) =
      ⟨DropReason.dropReasonNone, [⟨srcEx, tgtEx, true, false, macSelf⟩], 1⟩ :=
  ⟨by decide, rfl, rfl,
   (process_request_response_characterization macSelf ("eth0") annAllow false srcEx tgtEx tgtEx
      optsEx [NDOption.otherOpt] macA (by decide) rfl rfl).2.2⟩

end EgressGW
